import Mathlib

/-!
Verification of the format-adapter layer and the stateful tool-output
correlator of the poe-context-plugin repository.

The TypeScript source is shallowly embedded: request bodies are modelled by
an inductive JSON value type, the four format descriptors
(`openai-chat`, `openai-responses`, `gemini`, `bedrock`) become functions
over that type, the mutable plugin state becomes an explicit record that is
threaded through the pure transition functions, and JavaScript `Map`s become
association lists in insertion order (matching JS `Map` iteration order).

Modelling conventions, used consistently below:
* JS string case-folding (`toLowerCase`) is modelled by `jsLower`, mapping
  `Char.toLower` over the characters (the identifiers handled by the plugin
  are ASCII; locale-specific Unicode foldings are out of scope).
* Accessing a property of a non-object yields `none` (JS `undefined`).
  The JS code would throw a `TypeError` when calling `.toLowerCase()` on a
  non-string property; the embedding treats such a property as not matching,
  mirroring every total execution path of the source.
* `JSON.stringify` is modelled by `Json.stringify`; escaping of control
  characters inside string literals is simplified (no claim depends on the
  exact serialised text).
-/

namespace Poe

/-- JSON values, the shape of every request body handled by the plugin. -/
inductive Json where
  | null
  | bool (b : Bool)
  | num (n : Int)
  | str (s : String)
  | arr (elems : List Json)
  | obj (fields : List (String × Json))

mutual

def jsonDecEq : (a b : Json) → Decidable (a = b)
  | .null, .null => isTrue rfl
  | .null, .bool _ => isFalse nofun
  | .null, .num _ => isFalse nofun
  | .null, .str _ => isFalse nofun
  | .null, .arr _ => isFalse nofun
  | .null, .obj _ => isFalse nofun
  | .bool _, .null => isFalse nofun
  | .bool a, .bool b =>
    match decEq a b with
    | isTrue h => isTrue (h ▸ rfl)
    | isFalse h => isFalse (fun hh => h (Json.bool.inj hh))
  | .bool _, .num _ => isFalse nofun
  | .bool _, .str _ => isFalse nofun
  | .bool _, .arr _ => isFalse nofun
  | .bool _, .obj _ => isFalse nofun
  | .num _, .null => isFalse nofun
  | .num _, .bool _ => isFalse nofun
  | .num a, .num b =>
    match decEq a b with
    | isTrue h => isTrue (h ▸ rfl)
    | isFalse h => isFalse (fun hh => h (Json.num.inj hh))
  | .num _, .str _ => isFalse nofun
  | .num _, .arr _ => isFalse nofun
  | .num _, .obj _ => isFalse nofun
  | .str _, .null => isFalse nofun
  | .str _, .bool _ => isFalse nofun
  | .str _, .num _ => isFalse nofun
  | .str a, .str b =>
    match decEq a b with
    | isTrue h => isTrue (h ▸ rfl)
    | isFalse h => isFalse (fun hh => h (Json.str.inj hh))
  | .str _, .arr _ => isFalse nofun
  | .str _, .obj _ => isFalse nofun
  | .arr _, .null => isFalse nofun
  | .arr _, .bool _ => isFalse nofun
  | .arr _, .num _ => isFalse nofun
  | .arr _, .str _ => isFalse nofun
  | .arr a, .arr b =>
    match jsonListDecEq a b with
    | isTrue h => isTrue (h ▸ rfl)
    | isFalse h => isFalse (fun hh => h (Json.arr.inj hh))
  | .arr _, .obj _ => isFalse nofun
  | .obj _, .null => isFalse nofun
  | .obj _, .bool _ => isFalse nofun
  | .obj _, .num _ => isFalse nofun
  | .obj _, .str _ => isFalse nofun
  | .obj _, .arr _ => isFalse nofun
  | .obj a, .obj b =>
    match jsonFieldsDecEq a b with
    | isTrue h => isTrue (h ▸ rfl)
    | isFalse h => isFalse (fun hh => h (Json.obj.inj hh))

def jsonListDecEq : (a b : List Json) → Decidable (a = b)
  | [], [] => isTrue rfl
  | [], _ :: _ => isFalse nofun
  | _ :: _, [] => isFalse nofun
  | a :: as, b :: bs =>
    match jsonDecEq a b, jsonListDecEq as bs with
    | isTrue h1, isTrue h2 => isTrue (h1 ▸ h2 ▸ rfl)
    | isFalse h1, _ => isFalse (fun hh => h1 (List.cons.inj hh).1)
    | _, isFalse h2 => isFalse (fun hh => h2 (List.cons.inj hh).2)

def jsonFieldsDecEq : (a b : List (String × Json)) → Decidable (a = b)
  | [], [] => isTrue rfl
  | [], _ :: _ => isFalse nofun
  | _ :: _, [] => isFalse nofun
  | (k, v) :: as, (k', v') :: bs =>
    match decEq k k', jsonDecEq v v', jsonFieldsDecEq as bs with
    | isTrue h1, isTrue h2, isTrue h3 => isTrue (h1 ▸ h2 ▸ h3 ▸ rfl)
    | isFalse h1, _, _ => isFalse (fun hh => h1 (congrArg Prod.fst (List.cons.inj hh).1))
    | _, isFalse h2, _ => isFalse (fun hh => h2 (congrArg Prod.snd (List.cons.inj hh).1))
    | _, _, isFalse h3 => isFalse (fun hh => h3 (List.cons.inj hh).2)

end

instance : DecidableEq Json := jsonDecEq

/-- JS `toLowerCase`, character-wise ASCII case folding. -/
def jsLower (s : String) : String := String.mk (s.data.map Char.toLower)

/-- Property access `o[k]`; `none` models JS `undefined`. -/
def Json.getField : Json → String → Option Json
  | .obj fs, k => fs.lookup k
  | _, _ => none

/-- Replace the value stored at the first occurrence of a key, else append.
This is the effect of the JS spread `.. ...o, k: v ..` on an object whose
keys are unique, and of `Map.prototype.set` on an insertion-ordered map. -/
def alSet {α : Type} : List (String × α) → String → α → List (String × α)
  | [], k, v => [(k, v)]
  | (k', v') :: rest, k, v =>
    if k' = k then (k, v) :: rest else (k', v') :: alSet rest k v

/-- Object update `.. ...o, k: v ..`; on non-objects it is the identity
(the source only spreads values it has just pattern-matched as objects). -/
def Json.setField : Json → String → Json → Json
  | .obj fs, k, v => .obj (alSet fs k v)
  | j, _, _ => j

/-- JS truthiness of a JSON value. -/
def truthy : Json → Bool
  | .null => false
  | .bool b => b
  | .num n => decide (n ≠ 0)
  | .str s => decide (s ≠ "")
  | .arr _ => true
  | .obj _ => true

/-- `o[k]?.toLowerCase()` when the property is a string; `none` when the
property is absent or not a string (a non-string would throw in JS). -/
def optStrLower (v : Option Json) : Option String :=
  match v with
  | some (.str s) => some (jsLower s)
  | _ => none

def escChar (c : Char) : String :=
  if c = '"' then "\\\"" else if c = '\\' then "\\\\" else String.mk [c]

def escStr (s : String) : String :=
  "\"" ++ String.join (s.data.map escChar) ++ "\""

mutual

/-- `JSON.stringify` (argument defined, compact output). -/
def Json.stringify : Json → String
  | .null => "null"
  | .bool true => "true"
  | .bool false => "false"
  | .num n => n.repr
  | .str s => escStr s
  | .arr xs => "[" ++ stringifyList xs ++ "]"
  | .obj fs => "\x7b" ++ stringifyFields fs ++ "\x7d"

def stringifyList : List Json → String
  | [] => ""
  | [x] => x.stringify
  | x :: y :: rest => x.stringify ++ "," ++ stringifyList (y :: rest)

def stringifyFields : List (String × Json) → String
  | [] => ""
  | [(k, v)] => escStr k ++ ":" ++ v.stringify
  | (k, v) :: f :: rest => escStr k ++ ":" ++ v.stringify ++ "," ++ stringifyFields (f :: rest)

end

/-! ## Format detection (`detectFormat` in the fetch wrapper, and each
descriptor's `detect` predicate over top-level body keys). -/

/-- The closed set of the four supported provider formats. -/
inductive Format where
  | openaiChat
  | openaiResponses
  | gemini
  | bedrock
deriving DecidableEq

/-- `Array.isArray(body[k])` (the conjunction `body[k] && Array.isArray(body[k])`
used by some descriptors is equivalent, since every array is truthy). -/
def isArrField (body : Json) (k : String) : Bool :=
  match body.getField k with
  | some (.arr _) => true
  | _ => false

/-- `openaiResponsesFormat.detect`: top-level `input` is an array. -/
def openaiResponsesDetect (body : Json) : Bool := isArrField body "input"

/-- `bedrockFormat.detect`: `system` is an array, `inferenceConfig` is not
`undefined`, and `messages` is an array. -/
def bedrockDetect (body : Json) : Bool :=
  isArrField body "system" && (body.getField "inferenceConfig").isSome &&
    isArrField body "messages"

/-- `openaiChatFormat.detect`: top-level `messages` is an array. -/
def openaiChatDetect (body : Json) : Bool := isArrField body "messages"

/-- `geminiFormat.detect`: top-level `contents` is an array. -/
def geminiDetect (body : Json) : Bool := isArrField body "contents"

/-- `detectFormat`: the fixed priority cascade Responses, Bedrock, Chat,
Gemini; `none` models the `null` (unknown format) result. -/
def detectFormat (body : Json) : Option Format :=
  if openaiResponsesDetect body then some .openaiResponses
  else if bedrockDetect body then some .bedrock
  else if openaiChatDetect body then some .openaiChat
  else if geminiDetect body then some .gemini
  else none

/-- The body key holding each format's turn array. -/
def Format.fieldName : Format → String
  | .openaiChat => "messages"
  | .openaiResponses => "input"
  | .gemini => "contents"
  | .bedrock => "messages"

/-- Each descriptor's `getDataArray`. The source returns the raw property;
the embedding yields `some` exactly when that property is an array (for a
detected body it always is, and the downstream utilities are no-ops on every
non-array value, so the observable behaviour agrees). -/
def getDataArray (fmt : Format) (body : Json) : Option (List Json) :=
  match body.getField fmt.fieldName with
  | some (.arr xs) => some xs
  | _ => none

/-! ## Tool-output extraction (each descriptor's `extractToolOutputs`). -/

/-- Normalized tool-output record. The source type declares
`id: string, toolName?: string, content?: string`; at runtime `toolName`
carries whatever JSON value sat in the corresponding property, so the
embedding keeps `toolName` and `content` as optional JSON values. -/
structure ToolOutput where
  id : String
  toolName : Option Json := none
  content : Option Json := none
deriving DecidableEq

/-- `typeof v === 'string' ? v : JSON.stringify(v)` (with
`JSON.stringify(undefined) = undefined` when the property is absent). -/
def stringifyContent (v : Option Json) : Option Json :=
  match v with
  | some (.str s) => some (.str s)
  | some j => some (.str j.stringify)
  | none => none

/-- An `openai-chat` `tool_result` part inside a `user` turn's content array:
`part.type === 'tool_result' && part.tool_use_id` (a truthy id is a
non-empty string). -/
def chatPartOutput (part : Json) : List ToolOutput :=
  match part.getField "type", part.getField "tool_use_id" with
  | some (.str "tool_result"), some (.str s) =>
    if s = "" then []
    else [⟨jsLower s, none, stringifyContent (part.getField "content")⟩]
  | _, _ => []

/-- One turn of `openaiChatFormat.extractToolOutputs`: the native
`role === 'tool' && tool_call_id` branch followed by the Anthropic-style
`role === 'user'` content-array branch (the two are disjoint on `role`). -/
def chatTurnOutputs (m : Json) : List ToolOutput :=
  (match m.getField "role", m.getField "tool_call_id" with
   | some (.str "tool"), some (.str s) =>
     if s = "" then []
     else [⟨jsLower s, m.getField "name", stringifyContent (m.getField "content")⟩]
   | _, _ => []) ++
  (match m.getField "role", m.getField "content" with
   | some (.str "user"), some (.arr parts) => parts.flatMap chatPartOutput
   | _, _ => [])

def openaiChatExtract (data : List Json) : List ToolOutput :=
  data.flatMap chatTurnOutputs

/-- One item of `openaiResponsesFormat.extractToolOutputs`:
`item.type === 'function_call_output' && item.call_id`. -/
def responsesItemOutput (item : Json) : List ToolOutput :=
  match item.getField "type", item.getField "call_id" with
  | some (.str "function_call_output"), some (.str s) =>
    if s = "" then []
    else [⟨jsLower s, item.getField "name", stringifyContent (item.getField "output")⟩]
  | _, _ => []

def openaiResponsesExtract (data : List Json) : List ToolOutput :=
  data.flatMap responsesItemOutput

/-- `c.text || JSON.stringify(c)` for one Bedrock content block inside a
`toolResult.content` array (a truthy non-string `text`, outside the wire
type, is approximated by its JSON serialisation). -/
def bedrockJoinBlock (c : Json) : String :=
  match c.getField "text" with
  | some (.str s) => if s = "" then c.stringify else s
  | some t => if truthy t then t.stringify else c.stringify
  | none => c.stringify

/-- The `content` field of a Bedrock tool output: joined text blocks when
`toolResult.content` is an array, otherwise its JSON serialisation. -/
def bedrockContentField (v : Option Json) : Option Json :=
  match v with
  | some (.arr cs) => some (.str (String.intercalate "\n" (cs.map bedrockJoinBlock)))
  | some j => some (.str j.stringify)
  | none => none

/-- One content block of `bedrockFormat.extractToolOutputs`:
`block.toolResult && block.toolResult.toolUseId`. -/
def bedrockBlockOutputs (block : Json) : List ToolOutput :=
  match block.getField "toolResult" with
  | some tr =>
    if truthy tr then
      match tr.getField "toolUseId" with
      | some (.str s) =>
        if s = "" then []
        else [⟨jsLower s, none, bedrockContentField (tr.getField "content")⟩]
      | _ => []
    else []
  | none => []

def bedrockTurnOutputs (m : Json) : List ToolOutput :=
  match m.getField "role", m.getField "content" with
  | some (.str "user"), some (.arr blocks) => blocks.flatMap bedrockBlockOutputs
  | _, _ => []

def bedrockExtract (data : List Json) : List ToolOutput :=
  data.flatMap bedrockTurnOutputs

/-! ## Gemini extraction and the correlation table. -/

/-- `response?.content || JSON.stringify(response)` for a
`functionResponse` value. -/
def geminiRespContent (fr : Json) : Option Json :=
  match fr.getField "response" with
  | none => none
  | some r =>
    match r.getField "content" with
    | some cv => if truthy cv then some cv else some (.str r.stringify)
    | none => some (.str r.stringify)

/-- The guard shared by the table-based walks:
`part.functionResponse` truthy, with a truthy string `name`. Returns the
raw name, the case-folded name and the `functionResponse` value. -/
def geminiPartCall (part : Json) : Option (String × String × Json) :=
  match part.getField "functionResponse" with
  | some fr =>
    if truthy fr then
      match fr.getField "name" with
      | some (.str s) => if s = "" then none else some (s, jsLower s, fr)
      | _ => none
    else none
  | none => none

/-- One part of the table-based extraction walk: bump the per-name counter,
look up `"name:index"`, and use the recovered identifier
(`toolCallId?.toLowerCase() || synthetic`). -/
def geminiTablePart (mapping : List (String × String)) (cs : String → Nat) (part : Json) :
    List ToolOutput × (String → Nat) :=
  match geminiPartCall part with
  | none => ([], cs)
  | some (_, fn, fr) =>
    let ci := cs fn
    let outId :=
      match mapping.lookup (fn ++ ":" ++ Nat.repr ci) with
      | some tid =>
        if jsLower tid = "" then "gemini-" ++ fn ++ "-" ++ Nat.repr ci else jsLower tid
      | none => "gemini-" ++ fn ++ "-" ++ Nat.repr ci
    ([⟨outId, some (.str fn), geminiRespContent fr⟩], fun n => if n = fn then ci + 1 else cs n)

def geminiTableParts (mapping : List (String × String)) :
    List Json → (String → Nat) → List ToolOutput × (String → Nat)
  | [], cs => ([], cs)
  | p :: ps, cs =>
    let r := geminiTablePart mapping cs p
    let rest := geminiTableParts mapping ps r.2
    (r.1 ++ rest.1, rest.2)

def geminiTableData (mapping : List (String × String)) :
    List Json → (String → Nat) → List ToolOutput × (String → Nat)
  | [], cs => ([], cs)
  | t :: ts, cs =>
    match t.getField "parts" with
    | some (.arr ps) =>
      let r := geminiTableParts mapping ps cs
      let rest := geminiTableData mapping ts r.2
      (r.1 ++ rest.1, rest.2)
    | _ => geminiTableData mapping ts cs

/-- `part.functionResponse.name?.toLowerCase()` in the no-table fallback
(present for any truthy `functionResponse`, even without a usable name). -/
def geminiFallbackName (fr : Json) : Option String :=
  match fr.getField "name" with
  | some (.str s) => some (jsLower s)
  | _ => none

/-- The no-table fallback over one `parts` array; `k` is `outputs.length`
at entry — the synthetic identifier interpolates the GLOBAL count of
outputs pushed so far (`gemini-${funcName}-${outputs.length}`), and an
absent name interpolates as the text `undefined`. -/
def geminiFallbackParts : Nat → List Json → List ToolOutput
  | _, [] => []
  | k, p :: ps =>
    match p.getField "functionResponse" with
    | some fr =>
      if truthy fr then
        ⟨"gemini-" ++ ((geminiFallbackName fr).getD "undefined") ++ "-" ++ Nat.repr k,
          (geminiFallbackName fr).map Json.str, geminiRespContent fr⟩ ::
          geminiFallbackParts (k + 1) ps
      else geminiFallbackParts k ps
    | none => geminiFallbackParts k ps

def geminiFallbackData : Nat → List Json → List ToolOutput
  | _, [] => []
  | k, t :: ts =>
    match t.getField "parts" with
    | some (.arr ps) =>
      let os := geminiFallbackParts k ps
      os ++ geminiFallbackData (k + os.length) ts
    | _ => geminiFallbackData k ts

/-- The Gemini mapping-selection loop: the first entry of the store (in
insertion order) whose table is non-empty, ignoring the session key. -/
def firstNonEmptyMapping : List (String × List (String × String)) → Option (List (String × String))
  | [] => none
  | e :: rest => if e.2.isEmpty then firstNonEmptyMapping rest else some e.2

/-! ## Plugin state (`lib/state.ts`) and the chat.params hook. -/

structure ModelInfo where
  providerID : String
  modelID : String
deriving DecidableEq

/-- `PluginState`, with JS `Map`/`Set` replaced by insertion-ordered
association lists / lists. -/
structure PluginState where
  model : List (String × ModelInfo) := []
  googleToolCallMapping : List (String × List (String × String)) := []
  checkedSessions : List String := []
  subagentSessions : List String := []
  lastSeenSessionId : Option String := none
deriving DecidableEq

def createPluginState : PluginState := {}

/-- `geminiFormat.extractToolOutputs`: use the first non-empty stored
table if any, else the synthetic-id fallback. -/
def geminiExtract (data : List Json) (st : PluginState) : List ToolOutput :=
  match firstNonEmptyMapping st.googleToolCallMapping with
  | none => geminiFallbackData 0 data
  | some mapping => (geminiTableData mapping data (fun _ => 0)).1

/-- `format.extractToolOutputs(data, state)` dispatched on the format. -/
def extractToolOutputs (fmt : Format) (data : List Json) (st : PluginState) : List ToolOutput :=
  match fmt with
  | .openaiChat => openaiChatExtract data
  | .openaiResponses => openaiResponsesExtract data
  | .gemini => geminiExtract data st
  | .bedrock => bedrockExtract data

/-- One transcript part of the correlation builder in
`createChatParamsHandler`: `part.type === 'tool' && part.callID && part.tool`
yields the case-folded `(tool, callID)` pair. -/
def toolPartPair (part : Json) : List (String × String) :=
  match part.getField "type", part.getField "callID", part.getField "tool" with
  | some (.str "tool"), some (.str cid), some (.str tn) =>
    if cid = "" ∨ tn = "" then [] else [(jsLower tn, jsLower cid)]
  | _, _, _ => []

/-- Walk the authoritative transcript in order, collecting the case-folded
`(toolName, callId)` pairs of its tool parts (a `msg.parts` that is not an
array is skipped). -/
def collectToolParts : List Json → List (String × String)
  | [] => []
  | msg :: rest =>
    (match msg.getField "parts" with
     | some (.arr ps) => ps.flatMap toolPartPair
     | _ => []) ++ collectToolParts rest

/-- `toolCallsByName.get(toolName).push(callId)` on an insertion-ordered
map: append to the existing group, else append a new group. -/
def addToGroup : List (String × List String) → String → String → List (String × List String)
  | [], tn, cid => [(tn, [cid])]
  | (k, ids) :: rest, tn, cid =>
    if k = tn then (k, ids ++ [cid]) :: rest else (k, ids) :: addToGroup rest tn cid

def toolCallsByName (pairs : List (String × String)) : List (String × List String) :=
  pairs.foldl (fun acc p => addToGroup acc p.1 p.2) []

/-- Flatten the per-name call lists into the correlation table:
`"toolName:index" → callId` with the zero-based per-name rank. -/
def buildPositionMapping (msgs : List Json) : List (String × String) :=
  (toolCallsByName (collectToolParts msgs)).flatMap
    (fun g => g.2.enum.map fun p => (g.1 ++ ":" ++ Nat.repr p.1, p.2))

/-- The inputs one `chat.params` event feeds into the state transition:
`providerID` is the value after the source's fallback derivation chain,
`isSubagent` the awaited result of `isSubagentSession`, and `transcript`
the `client.session.messages` result (`none` models a failed fetch or a
non-array response, both of which skip the table rebuild). -/
structure ChatParamsInput where
  sessionID : String
  providerID : Option String := none
  modelID : Option String := none
  isSubagent : Bool := false
  transcript : Option (List Json) := none

/-- The state effects of `createChatParamsHandler`, in source order:
clear all Gemini mappings when the (truthy) last-seen session id differs
from the incoming one; record the session; classify it once; cache model
info when both ids are truthy; for the google / google-vertex providers
rebuild and store this session's correlation table. -/
def chatParamsStep (st : PluginState) (inp : ChatParamsInput) : PluginState :=
  let st1 :=
    match st.lastSeenSessionId with
    | some prev =>
      if prev ≠ "" ∧ prev ≠ inp.sessionID then { st with googleToolCallMapping := [] } else st
    | none => st
  let st2 := { st1 with lastSeenSessionId := some inp.sessionID }
  let st3 :=
    if inp.sessionID ∈ st2.checkedSessions then st2
    else
      let stc := { st2 with checkedSessions := st2.checkedSessions ++ [inp.sessionID] }
      if inp.isSubagent then
        { stc with subagentSessions := stc.subagentSessions ++ [inp.sessionID] }
      else stc
  let st4 :=
    match inp.providerID, inp.modelID with
    | some p, some m =>
      if p = "" ∨ m = "" then st3 else { st3 with model := alSet st3.model inp.sessionID ⟨p, m⟩ }
    | _, _ => st3
  if inp.providerID = some "google" ∨ inp.providerID = some "google-vertex" then
    match inp.transcript with
    | some msgs =>
      let table := buildPositionMapping msgs
      { st4 with googleToolCallMapping := alSet st4.googleToolCallMapping inp.sessionID table }
    | none => st4
  else st4

/-- The table (if any) a single `chat.params` event stores for its own
session, independent of prior state. -/
def builtMapping (inp : ChatParamsInput) : Option (List (String × String)) :=
  if inp.providerID = some "google" ∨ inp.providerID = some "google-vertex" then
    inp.transcript.map buildPositionMapping
  else none

/-! ## Mutation utilities. -/

/-- The per-format user-turn predicate of `injectIntoLastUserMessage`
(for Responses a turn qualifies only with `type === 'message'` AND
`role === 'user'`; for Gemini it also needs an array `parts`). -/
def userTurnPred (fmt : Format) (item : Json) : Bool :=
  match fmt with
  | .openaiChat => decide (item.getField "role" = some (.str "user"))
  | .openaiResponses =>
    decide (item.getField "type" = some (.str "message")) &&
      decide (item.getField "role" = some (.str "user"))
  | .gemini => decide (item.getField "role" = some (.str "user")) && isArrField item "parts"
  | .bedrock => decide (item.getField "role" = some (.str "user"))

/-- Append text to a user turn: string content gets `\n\n` + text,
array content gets a pushed text part, any other content shape is left
as is (the source still reports success). -/
def appendTextToContent (textPart : Json) (c : String) (item : Json) : Json :=
  match item.getField "content" with
  | some (.str s) => item.setField "content" (.str (s ++ "\n\n" ++ c))
  | some (.arr xs) => item.setField "content" (.arr (xs ++ [textPart]))
  | _ => item

/-- The per-format mutation applied to the targeted user turn. -/
def injectTransform (fmt : Format) (c : String) (item : Json) : Json :=
  match fmt with
  | .openaiChat => appendTextToContent (.obj [("type", .str "text"), ("text", .str c)]) c item
  | .openaiResponses =>
    appendTextToContent (.obj [("type", .str "input_text"), ("text", .str c)]) c item
  | .bedrock => appendTextToContent (.obj [("type", .str "text"), ("text", .str c)]) c item
  | .gemini =>
    match item.getField "parts" with
    | some (.arr ps) => item.setField "parts" (.arr (ps ++ [.obj [("text", .str c)]]))
    | _ => item

/-- The backwards scan of `injectIntoLastUserMessage` over the turn array:
recursing into the tail first realises the source's `for (i = len-1; ...)`
loop; `none` means no user turn was found. -/
def injectData (fmt : Format) (c : String) : List Json → Option (List Json)
  | [] => none
  | item :: rest =>
    match injectData fmt c rest with
    | some rest' => some (item :: rest')
    | none => if userTurnPred fmt item then some (injectTransform fmt c item :: rest) else none

/-- `injectIntoLastUserMessage(body, format, content)`; the returned body
reflects the in-place mutation of the turn array. -/
def injectIntoLastUserMessage (fmt : Format) (body : Json) (c : String) : Bool × Json :=
  match getDataArray fmt body with
  | none => (false, body)
  | some data =>
    match injectData fmt c data with
    | some data' => (true, body.setField fmt.fieldName (.arr data'))
    | none => (false, body)

/-- The minimal user turn `appendUserMessage` pushes, per format. -/
def newUserTurn (fmt : Format) (c : String) : Json :=
  match fmt with
  | .openaiChat => .obj [("role", .str "user"), ("content", .str c)]
  | .bedrock => .obj [("role", .str "user"), ("content", .str c)]
  | .openaiResponses => .obj [("type", .str "message"), ("role", .str "user"), ("content", .str c)]
  | .gemini => .obj [("role", .str "user"), ("parts", .arr [.obj [("text", .str c)]])]

/-- `appendUserMessage(body, format, content)`. -/
def appendUserMessage (fmt : Format) (body : Json) (c : String) : Bool × Json :=
  match getDataArray fmt body with
  | none => (false, body)
  | some data => (true, body.setField fmt.fieldName (.arr (data ++ [newUserTurn fmt c])))

/-- One `tool_result` part of the chat branch of `replaceToolOutput`:
`part.type === 'tool_result' && part.tool_use_id?.toLowerCase() === toolIdLower`
(note: no truthiness check on the id here, unlike extraction). -/
def chatReplacePart (idLower c : String) (part : Json) : Json × Bool :=
  if part.getField "type" = some (.str "tool_result") ∧
      optStrLower (part.getField "tool_use_id") = some idLower then
    (part.setField "content" (.str c), true)
  else (part, false)

/-- One turn of the chat branch of `replaceToolOutput`. The source's two
`if`s both test the original turn and are mutually exclusive on `role`. -/
def chatReplaceTurn (idLower c : String) (m : Json) : Json × Bool :=
  if m.getField "role" = some (.str "tool") ∧
      optStrLower (m.getField "tool_call_id") = some idLower then
    (m.setField "content" (.str c), true)
  else if m.getField "role" = some (.str "user") then
    match m.getField "content" with
    | some (.arr parts) =>
      let rs := parts.map (chatReplacePart idLower c)
      if rs.any (fun r => r.2) then (m.setField "content" (.arr (rs.map (fun r => r.1))), true)
      else (m, false)
    | _ => (m, false)
  else (m, false)

/-- One item of the responses branch of `replaceToolOutput`. -/
def responsesReplaceItem (idLower c : String) (item : Json) : Json × Bool :=
  if item.getField "type" = some (.str "function_call_output") ∧
      optStrLower (item.getField "call_id") = some idLower then
    (item.setField "output" (.str c), true)
  else (item, false)

/-- One content block of the bedrock branch of `replaceToolOutput`: the
matched `toolResult.content` is rewritten to a single text block. -/
def bedrockReplaceBlock (idLower c : String) (block : Json) : Json × Bool :=
  match block.getField "toolResult" with
  | some tr =>
    if truthy tr ∧ optStrLower (tr.getField "toolUseId") = some idLower then
      (block.setField "toolResult" (tr.setField "content" (.arr [.obj [("text", .str c)]])), true)
    else (block, false)
  | none => (block, false)

/-- One turn of the bedrock branch of `replaceToolOutput`. -/
def bedrockReplaceTurn (idLower c : String) (m : Json) : Json × Bool :=
  if m.getField "role" = some (.str "user") then
    match m.getField "content" with
    | some (.arr blocks) =>
      let rs := blocks.map (bedrockReplaceBlock idLower c)
      if rs.any (fun r => r.2) then (m.setField "content" (.arr (rs.map (fun r => r.1))), true)
      else (m, false)
    | _ => (m, false)
  else (m, false)

/-- One part of the gemini branch of `replaceToolOutput`: re-derive the
per-name occurrence counter, look the position key up, and when the mapped
identifier case-folds to the requested one, rebuild the part with
`response` replaced by `.. name, content: newContent ..`. -/
def geminiReplacePart (mapping : List (String × String)) (idLower c : String)
    (cs : String → Nat) (part : Json) : Json × (String → Nat) × Bool :=
  match geminiPartCall part with
  | none => (part, cs, false)
  | some (rawName, fn, fr) =>
    let ci := cs fn
    let cs' := fun n => if n = fn then ci + 1 else cs n
    match mapping.lookup (fn ++ ":" ++ Nat.repr ci) with
    | some tid =>
      if jsLower tid = idLower then
        (part.setField "functionResponse"
          (fr.setField "response" (.obj [("name", .str rawName), ("content", .str c)])),
          cs', true)
      else (part, cs', false)
    | none => (part, cs', false)

def geminiReplaceParts (mapping : List (String × String)) (idLower c : String) :
    List Json → (String → Nat) → List Json × (String → Nat) × Bool
  | [], cs => ([], cs, false)
  | p :: ps, cs =>
    let r := geminiReplacePart mapping idLower c cs p
    let rest := geminiReplaceParts mapping idLower c ps r.2.1
    (r.1 :: rest.1, rest.2.1, r.2.2 || rest.2.2)

/-- One turn of the gemini branch: the turn object is rebuilt only when one
of its parts was replaced (`contentModified`). -/
def geminiReplaceTurn (mapping : List (String × String)) (idLower c : String)
    (cs : String → Nat) (t : Json) : Json × (String → Nat) × Bool :=
  match t.getField "parts" with
  | some (.arr ps) =>
    let r := geminiReplaceParts mapping idLower c ps cs
    if r.2.2 then (t.setField "parts" (.arr r.1), r.2.1, true) else (t, r.2.1, false)
  | _ => (t, cs, false)

def geminiReplaceData (mapping : List (String × String)) (idLower c : String) :
    List Json → (String → Nat) → List Json × (String → Nat) × Bool
  | [], cs => ([], cs, false)
  | t :: ts, cs =>
    let r := geminiReplaceTurn mapping idLower c cs t
    let rest := geminiReplaceData mapping idLower c ts r.2.1
    (r.1 :: rest.1, rest.2.1, r.2.2 || rest.2.2)

/-- `replaceToolOutput(body, format, toolId, newContent, state)`. The
returned body reflects the source's in-place mutation of the turn array;
when nothing matches, the rebuilt array is element-wise the original one. -/
def replaceToolOutput (body : Json) (fmt : Format) (toolId c : String) (st : PluginState) :
    Bool × Json :=
  match getDataArray fmt body with
  | none => (false, body)
  | some data =>
    let idLower := jsLower toolId
    match fmt with
    | .openaiChat =>
      let rs := data.map (chatReplaceTurn idLower c)
      (rs.any (fun r => r.2), body.setField fmt.fieldName (.arr (rs.map (fun r => r.1))))
    | .openaiResponses =>
      let rs := data.map (responsesReplaceItem idLower c)
      (rs.any (fun r => r.2), body.setField fmt.fieldName (.arr (rs.map (fun r => r.1))))
    | .bedrock =>
      let rs := data.map (bedrockReplaceTurn idLower c)
      (rs.any (fun r => r.2), body.setField fmt.fieldName (.arr (rs.map (fun r => r.1))))
    | .gemini =>
      match firstNonEmptyMapping st.googleToolCallMapping with
      | none => (false, body)
      | some mapping =>
        let r := geminiReplaceData mapping idLower c data (fun _ => 0)
        (r.2.2, body.setField fmt.fieldName (.arr r.1))

/-! ## Specification-side helper definitions used by the claims. -/

/-- The identifiers the no-table Gemini fallback actually produces:
`gemini-{name}-{k}` with `k` the global output count (amended C3). -/
def expectedSyntheticIds : Nat → List String → List String
  | _, [] => []
  | k, nm :: nms => ("gemini-" ++ nm ++ "-" ++ Nat.repr k) :: expectedSyntheticIds (k + 1) nms

/-- The (lowered or `undefined`) names of the function-response parts of one
`parts` array, in order. -/
def geminiPartNames (ps : List Json) : List String :=
  ps.flatMap fun p =>
    match p.getField "functionResponse" with
    | some fr => if truthy fr then [(geminiFallbackName fr).getD "undefined"] else []
    | none => []

/-- The names of all function-response parts of a Gemini turn array. -/
def geminiDataNames (data : List Json) : List String :=
  data.flatMap fun t =>
    match t.getField "parts" with
    | some (.arr ps) => geminiPartNames ps
    | _ => []

/-- The Gemini correlation store right after the session-change check of
`chatParamsStep`: cleared exactly when the previously seen session id is
truthy and differs from the incoming one. -/
def clearedMapping (st : PluginState) (inp : ChatParamsInput) :
    List (String × List (String × String)) :=
  match st.lastSeenSessionId with
  | some prev => if prev ≠ "" ∧ prev ≠ inp.sessionID then [] else st.googleToolCallMapping
  | none => st.googleToolCallMapping

/-- A chat turn whose native `tool` identifier matches (frame predicate for
C5/C7). -/
def chatTurnMatchTool (idLower : String) (m : Json) : Prop :=
  m.getField "role" = some (.str "tool") ∧ optStrLower (m.getField "tool_call_id") = some idLower

/-- A chat `tool_result` part whose identifier matches. -/
def chatPartMatch (idLower : String) (part : Json) : Prop :=
  part.getField "type" = some (.str "tool_result") ∧
    optStrLower (part.getField "tool_use_id") = some idLower

/-- A chat user turn containing a matching `tool_result` part. -/
def chatTurnMatchUser (idLower : String) (m : Json) : Prop :=
  m.getField "role" = some (.str "user") ∧
    ∃ parts, m.getField "content" = some (.arr parts) ∧ ∃ p ∈ parts, chatPartMatch idLower p

/-- A responses item whose `call_id` matches. -/
def responsesItemMatch (idLower : String) (item : Json) : Prop :=
  item.getField "type" = some (.str "function_call_output") ∧
    optStrLower (item.getField "call_id") = some idLower

/-- A bedrock content block whose `toolResult.toolUseId` matches. -/
def bedrockBlockMatch (idLower : String) (block : Json) : Prop :=
  ∃ tr, block.getField "toolResult" = some tr ∧ truthy tr = true ∧
    optStrLower (tr.getField "toolUseId") = some idLower

/-- A bedrock user turn containing a matching `toolResult` block. -/
def bedrockTurnMatch (idLower : String) (m : Json) : Prop :=
  m.getField "role" = some (.str "user") ∧
    ∃ blocks, m.getField "content" = some (.arr blocks) ∧ ∃ b ∈ blocks, bedrockBlockMatch idLower b

/-- Frame relation for one chat turn under `replaceToolOutput` (C7): only
`content` may change, an unmatched turn is untouched, a matched `tool`
turn gets the new content, and inside a matched user turn only the
`content` of matching `tool_result` parts changes. -/
def chatTurnFrame (idLower c : String) (m m' : Json) : Prop :=
  (∀ k, k ≠ "content" → m'.getField k = m.getField k) ∧
  (¬ chatTurnMatchTool idLower m → ¬ chatTurnMatchUser idLower m → m' = m) ∧
  (chatTurnMatchTool idLower m → m'.getField "content" = some (.str c)) ∧
  (chatTurnMatchUser idLower m →
    ∃ parts parts', m.getField "content" = some (.arr parts) ∧
      m'.getField "content" = some (.arr parts') ∧ parts'.length = parts.length ∧
      ∀ j (hj : j < parts.length) (hj' : j < parts'.length),
        (∀ k, k ≠ "content" →
          (parts'.get ⟨j, hj'⟩).getField k = (parts.get ⟨j, hj⟩).getField k) ∧
        (¬ chatPartMatch idLower (parts.get ⟨j, hj⟩) →
          parts'.get ⟨j, hj'⟩ = parts.get ⟨j, hj⟩) ∧
        (chatPartMatch idLower (parts.get ⟨j, hj⟩) →
          (parts'.get ⟨j, hj'⟩).getField "content" = some (.str c)))

/-- Frame relation for one Responses item under `replaceToolOutput`:
only `output` may change, and only on a `call_id` match. -/
def responsesItemFrame (idLower c : String) (m m' : Json) : Prop :=
  (∀ k, k ≠ "output" → m'.getField k = m.getField k) ∧
  (¬ responsesItemMatch idLower m → m' = m) ∧
  (responsesItemMatch idLower m → m'.getField "output" = some (.str c))

/-- Frame relation for one Bedrock content block: only the matched block's
`toolResult.content` changes, rewritten to a single text block. -/
def bedrockBlockFrame (idLower c : String) (b b' : Json) : Prop :=
  (∀ k, k ≠ "toolResult" → b'.getField k = b.getField k) ∧
  (¬ bedrockBlockMatch idLower b → b' = b) ∧
  (bedrockBlockMatch idLower b →
    ∃ tr tr', b.getField "toolResult" = some tr ∧ b'.getField "toolResult" = some tr' ∧
      (∀ k, k ≠ "content" → tr'.getField k = tr.getField k) ∧
      tr'.getField "content" = some (.arr [.obj [("text", .str c)]]))

/-- Frame relation for one Bedrock turn. -/
def bedrockTurnFrame (idLower c : String) (m m' : Json) : Prop :=
  (∀ k, k ≠ "content" → m'.getField k = m.getField k) ∧
  (¬ bedrockTurnMatch idLower m → m' = m) ∧
  (bedrockTurnMatch idLower m →
    ∃ blocks blocks', m.getField "content" = some (.arr blocks) ∧
      m'.getField "content" = some (.arr blocks') ∧ blocks'.length = blocks.length ∧
      ∀ j (hj : j < blocks.length) (hj' : j < blocks'.length),
        bedrockBlockFrame idLower c (blocks.get ⟨j, hj⟩) (blocks'.get ⟨j, hj'⟩))

/-- Frame relation for one Gemini part: either untouched, or (for the
position-matched function response) exactly the `response` of its
`functionResponse` is replaced by `.. name, content ..`. -/
def geminiPartFrame (c : String) (p p' : Json) : Prop :=
  p' = p ∨
  ((∀ k, k ≠ "functionResponse" → p'.getField k = p.getField k) ∧
    ∃ fr fr', p.getField "functionResponse" = some fr ∧
      p'.getField "functionResponse" = some fr' ∧
      (∀ k, k ≠ "response" → fr'.getField k = fr.getField k) ∧
      ∃ nm, fr.getField "name" = some (.str nm) ∧
        fr'.getField "response" = some (.obj [("name", .str nm), ("content", .str c)]))

/-- Frame relation for one Gemini turn: only `parts` may change, pointwise
by `geminiPartFrame`. -/
def geminiTurnFrame (c : String) (t t' : Json) : Prop :=
  (∀ k, k ≠ "parts" → t'.getField k = t.getField k) ∧
  (t' = t ∨ ∃ ps ps', t.getField "parts" = some (.arr ps) ∧
    t'.getField "parts" = some (.arr ps') ∧ ps'.length = ps.length ∧
    ∀ j (hj : j < ps.length) (hj' : j < ps'.length),
      geminiPartFrame c (ps.get ⟨j, hj⟩) (ps'.get ⟨j, hj'⟩))

/-- The per-format turn frame used by C7. -/
def turnFrame (fmt : Format) (idLower c : String) (m m' : Json) : Prop :=
  match fmt with
  | .openaiChat => chatTurnFrame idLower c m m'
  | .openaiResponses => responsesItemFrame idLower c m m'
  | .bedrock => bedrockTurnFrame idLower c m m'
  | .gemini => geminiTurnFrame c m m'

/-! ## Helper lemmas: case folding. -/

theorem charOfNat_toNat_of_lower (m : Nat) (h1 : 97 ≤ m) (h2 : m ≤ 122) :
    (Char.ofNat m).toNat = m := by
  interval_cases m <;> decide

theorem charToLower_idem (c : Char) : Char.toLower (Char.toLower c) = Char.toLower c := by
  by_cases h : 65 ≤ c.toNat ∧ c.toNat ≤ 90
  · have h1 : Char.toLower c = Char.ofNat (c.toNat + 32) := by
      unfold Char.toLower
      rw [if_pos ⟨h.1, h.2⟩]
    have ht : (Char.ofNat (c.toNat + 32)).toNat = c.toNat + 32 :=
      charOfNat_toNat_of_lower _ (by omega) (by omega)
    rw [h1]
    conv_lhs => unfold Char.toLower
    rw [ht, if_neg (by omega)]
  · have h1 : Char.toLower c = c := by
      unfold Char.toLower
      rw [if_neg (by omega)]
    simp [h1]

theorem jsLower_idem (s : String) : jsLower (jsLower s) = jsLower s := by
  apply congrArg String.mk
  show (s.data.map Char.toLower).map Char.toLower = s.data.map Char.toLower
  rw [List.map_map]
  exact List.map_congr_left (fun c _ => charToLower_idem c)

theorem jsLower_append (a b : String) : jsLower (a ++ b) = jsLower a ++ jsLower b := by
  apply congrArg String.mk
  show ((a ++ b).data.map Char.toLower) = (a.data.map Char.toLower) ++ (b.data.map Char.toLower)
  simp [String.data_append]

theorem jsLower_eq_empty_iff (s : String) : jsLower s = "" ↔ s = "" := by
  constructor
  · intro h
    have h1 : s.data.map Char.toLower = [] := congrArg String.data h
    have h2 : s.data = [] := by simpa using h1
    cases s
    simp_all
  · intro h
    subst h
    rfl

theorem digitChar_toLower (n : Nat) (h : n < 10) :
    Char.toLower (Nat.digitChar n) = Nat.digitChar n := by
  interval_cases n <;> decide

theorem toDigitsCore_toLower (fuel : Nat) : ∀ (n : Nat) (ds : List Char),
    (∀ c ∈ ds, Char.toLower c = c) →
    ∀ c ∈ Nat.toDigitsCore 10 fuel n ds, Char.toLower c = c := by
  induction fuel with
  | zero =>
    intro n ds hds c hc
    simpa [Nat.toDigitsCore] using hds c (by simpa [Nat.toDigitsCore] using hc)
  | succ fuel ih =>
    intro n ds hds c hc
    rw [Nat.toDigitsCore] at hc
    have hdig : ∀ c ∈ (Nat.digitChar (n % 10) :: ds), Char.toLower c = c := by
      intro c hc
      rcases List.mem_cons.mp hc with h | h
      · subst h
        exact digitChar_toLower _ (Nat.mod_lt _ (by omega))
      · exact hds c h
    by_cases hz : n / 10 = 0
    · simp only [hz, if_pos rfl] at hc
      exact hdig c hc
    · simp only [if_neg hz] at hc
      exact ih (n / 10) (Nat.digitChar (n % 10) :: ds) hdig c hc

theorem jsLower_natRepr (n : Nat) : jsLower (Nat.repr n) = Nat.repr n := by
  unfold Nat.repr
  unfold jsLower
  apply congrArg String.mk
  show (Nat.toDigits 10 n).asString.data.map Char.toLower = (Nat.toDigits 10 n).asString.data
  have h : ∀ c ∈ Nat.toDigits 10 n, Char.toLower c = c := by
    intro c hc
    exact toDigitsCore_toLower (n + 1) n [] (by simp) c hc
  calc (Nat.toDigits 10 n).asString.data.map Char.toLower
      = (Nat.toDigits 10 n).map Char.toLower := rfl
    _ = (Nat.toDigits 10 n).map id := List.map_congr_left h
    _ = (Nat.toDigits 10 n) := List.map_id _
    _ = (Nat.toDigits 10 n).asString.data := rfl

/-! ## Helper lemmas: field access and update. -/

theorem alSet_lookup_eq {α : Type} (fs : List (String × α)) (k : String) (v : α) :
    (alSet fs k v).lookup k = some v := by
  induction fs with
  | nil => simp [alSet, List.lookup]
  | cons e rest ih =>
    cases e with
    | mk ek ev =>
      by_cases he : ek = k
      · subst he
        simp [alSet, List.lookup]
      · have hne : (k == ek) = false := beq_eq_false_iff_ne.mpr (fun hh => he hh.symm)
        simp [alSet, he, List.lookup, hne, ih]

theorem alSet_lookup_ne {α : Type} (fs : List (String × α)) (k k' : String) (v : α)
    (h : k' ≠ k) : (alSet fs k v).lookup k' = fs.lookup k' := by
  induction fs with
  | nil =>
    have hne : (k' == k) = false := beq_eq_false_iff_ne.mpr h
    simp [alSet, List.lookup, hne]
  | cons e rest ih =>
    cases e with
    | mk ek ev =>
      by_cases he : ek = k
      · subst he
        have hne : (k' == ek) = false := beq_eq_false_iff_ne.mpr h
        simp [alSet, List.lookup, hne]
      · cases hbe : (k' == ek) <;> simp [alSet, he, List.lookup, hbe, ih]

theorem alSet_self {α : Type} (fs : List (String × α)) (k : String) (v : α)
    (h : fs.lookup k = some v) : alSet fs k v = fs := by
  induction fs with
  | nil => simp [List.lookup] at h
  | cons e rest ih =>
    cases e with
    | mk ek ev =>
      by_cases he : ek = k
      · subst he
        simp [List.lookup] at h
        simp [alSet, h]
      · have hne : (k == ek) = false := beq_eq_false_iff_ne.mpr (fun hh => he hh.symm)
        simp only [List.lookup, hne] at h
        simp [alSet, he, ih h]

theorem getField_setField_eq (fs : List (String × Json)) (k : String) (v : Json) :
    ((Json.obj fs).setField k v).getField k = some v := by
  simp [Json.setField, Json.getField, alSet_lookup_eq]

theorem getField_setField_ne (j : Json) (k k' : String) (v : Json) (h : k' ≠ k) :
    (j.setField k v).getField k' = j.getField k' := by
  cases j <;> simp [Json.setField, Json.getField]
  exact alSet_lookup_ne _ _ _ _ h

theorem setField_self (j : Json) (k : String) (v : Json) (h : j.getField k = some v) :
    j.setField k v = j := by
  cases j <;> simp [Json.getField] at h
  simp [Json.setField, alSet_self _ _ _ h]

/-- C2: for every request body, the detector applies the four predicates in
the fixed order Responses, Bedrock, Chat, Gemini and returns the first
match; in particular every body satisfying Bedrock's compound predicate
whose `input` is not an array also satisfies Chat's predicate yet is
classified as Bedrock, never as Chat. -/
theorem detect_priority_c2 (body : Json) :
    (openaiResponsesDetect body = true → detectFormat body = some .openaiResponses) ∧
    (openaiResponsesDetect body = false → bedrockDetect body = true →
      detectFormat body = some .bedrock) ∧
    (openaiResponsesDetect body = false → bedrockDetect body = false →
      openaiChatDetect body = true → detectFormat body = some .openaiChat) ∧
    (openaiResponsesDetect body = false → bedrockDetect body = false →
      openaiChatDetect body = false → geminiDetect body = true →
      detectFormat body = some .gemini) ∧
    (openaiResponsesDetect body = false → bedrockDetect body = false →
      openaiChatDetect body = false → geminiDetect body = false →
      detectFormat body = none) ∧
    (bedrockDetect body = true → openaiResponsesDetect body = false →
      openaiChatDetect body = true ∧ detectFormat body = some .bedrock ∧
        detectFormat body ≠ some .openaiChat) := by
  refine ⟨?_, ?_, ?_, ?_, ?_, ?_⟩
  · intro h1
    simp [detectFormat, h1]
  · intro h1 h2
    simp [detectFormat, h1, h2]
  · intro h1 h2 h3
    simp [detectFormat, h1, h2, h3]
  · intro h1 h2 h3 h4
    simp [detectFormat, h1, h2, h3, h4]
  · intro h1 h2 h3 h4
    simp [detectFormat, h1, h2, h3, h4]
  · intro hb hr
    have hchat : openaiChatDetect body = true := by
      have := hb
      unfold bedrockDetect at this
      unfold openaiChatDetect
      simp only [Bool.and_eq_true] at this
      exact this.2
    refine ⟨hchat, by simp [detectFormat, hr, hb], by simp [detectFormat, hr, hb]⟩

/-- Witness for C2 at a concrete Bedrock-shaped body. -/
theorem detect_priority_c2_witness :
    (detectFormat (Json.obj [("system", .arr []), ("inferenceConfig", .obj []),
        ("messages", .arr [])]) = some .bedrock) ∧
    (openaiChatDetect (Json.obj [("system", .arr []), ("inferenceConfig", .obj []),
        ("messages", .arr [])]) = true) := by
  have h := detect_priority_c2 (Json.obj [("system", .arr []), ("inferenceConfig", .obj []),
    ("messages", .arr [])])
  have h6 := h.2.2.2.2.2 (by decide) (by decide)
  exact ⟨h6.2.1, h6.1⟩

/-! ## Claim C4: session-change invalidation. -/

theorem chatParamsStep_mapping (st : PluginState) (inp : ChatParamsInput) :
    (chatParamsStep st inp).googleToolCallMapping =
      match builtMapping inp with
      | some table => alSet (clearedMapping st inp) inp.sessionID table
      | none => clearedMapping st inp := by
  unfold chatParamsStep builtMapping clearedMapping
  dsimp only
  repeat' split
  all_goals simp_all

theorem chatParamsStep_lastSeen (st : PluginState) (inp : ChatParamsInput) :
    (chatParamsStep st inp).lastSeenSessionId = some inp.sessionID := by
  unfold chatParamsStep
  dsimp only
  repeat' split
  all_goals simp_all

/-- C4 (counterexample): the claim quantifies over every plugin state with
`lastSeenSessionId = some A`; at `A = ""` the source's truthiness guard
skips the clear, so a stored mapping keyed by `A` survives a chat-params
event for a different session `B`. -/
theorem session_invalidation_c4_cex :
    (chatParamsStep
        { googleToolCallMapping := [("", [("read:0", "id1")])], lastSeenSessionId := some "" }
        { sessionID := "b" }).googleToolCallMapping.lookup "" = some [("read:0", "id1")] := by
  decide

/-- C4 (amended): for every plugin state whose last-seen session id is a
NON-EMPTY session `A`, processing a chat-params event for a different
session `B` clears the whole Gemini correlation store — afterwards no
mapping keyed by `A` remains; and even when a later event returns to
session `A`, the mapping found under `A` is exactly the one that later
event itself rebuilds (never the old one). -/
theorem session_invalidation_c4 (st : PluginState) (A : String)
    (hA : st.lastSeenSessionId = some A) (hAne : A ≠ "")
    (inpB : ChatParamsInput) (hB : inpB.sessionID ≠ A) :
    (chatParamsStep st inpB).googleToolCallMapping.lookup A = none ∧
    (∀ inpA : ChatParamsInput, inpA.sessionID = A →
      (chatParamsStep (chatParamsStep st inpB) inpA).googleToolCallMapping.lookup A =
        builtMapping inpA) := by
  have hANeB : A ≠ inpB.sessionID := fun h => hB h.symm
  have hclear : clearedMapping st inpB = [] := by
    unfold clearedMapping
    rw [hA]
    exact if_pos ⟨hAne, hANeB⟩
  have h1 := chatParamsStep_mapping st inpB
  have hlook1 : (chatParamsStep st inpB).googleToolCallMapping.lookup A = none := by
    rw [h1, hclear]
    cases hbm : builtMapping inpB with
    | none => simp [List.lookup]
    | some t =>
      simp only
      rw [alSet_lookup_ne _ _ _ _ hANeB]
      simp [List.lookup]
  refine ⟨hlook1, ?_⟩
  intro inpA hAe
  subst hAe
  have h2 := chatParamsStep_mapping (chatParamsStep st inpB) inpA
  have hls : (chatParamsStep st inpB).lastSeenSessionId = some inpB.sessionID :=
    chatParamsStep_lastSeen st inpB
  have hcm : clearedMapping (chatParamsStep st inpB) inpA =
      (if inpB.sessionID ≠ "" ∧ inpB.sessionID ≠ inpA.sessionID then []
       else (chatParamsStep st inpB).googleToolCallMapping) := by
    unfold clearedMapping
    rw [hls]
  have hlook2 : (clearedMapping (chatParamsStep st inpB) inpA).lookup inpA.sessionID = none := by
    by_cases hBe : inpB.sessionID = ""
    · rw [hcm, if_neg (by simp [hBe])]
      exact hlook1
    · rw [hcm, if_pos ⟨hBe, hB⟩]
      simp [List.lookup]
  rw [h2]
  cases hbm : builtMapping inpA with
  | none => exact hlook2
  | some t =>
    simp only
    exact alSet_lookup_eq _ _ _

/-- Witness for C4 at a concrete state and pair of events. -/
theorem session_invalidation_c4_witness :
    (chatParamsStep
        { googleToolCallMapping := [("a", [("read:0", "id1")])], lastSeenSessionId := some "a" }
        { sessionID := "b" }).googleToolCallMapping.lookup "a" = none ∧
    (chatParamsStep
        (chatParamsStep
          { googleToolCallMapping := [("a", [("read:0", "id1")])], lastSeenSessionId := some "a" }
          { sessionID := "b" })
        { sessionID := "a" }).googleToolCallMapping.lookup "a" =
      builtMapping { sessionID := "a" } := by
  have h := session_invalidation_c4
    { googleToolCallMapping := [("a", [("read:0", "id1")])], lastSeenSessionId := some "a" }
    "a" rfl (by decide) { sessionID := "b" } (by decide)
  exact ⟨h.1, h.2 { sessionID := "a" } rfl⟩

/-! ## Claim C1: correlation-table construction and lookup. -/

theorem collectToolParts_mem (msgs : List Json) (p : String × String)
    (hp : p ∈ collectToolParts msgs) :
    jsLower p.1 = p.1 ∧ jsLower p.2 = p.2 ∧ p.1 ≠ "" ∧ p.2 ≠ "" := by
  induction msgs with
  | nil => simp [collectToolParts] at hp
  | cons msg rest ih =>
    rw [collectToolParts] at hp
    rcases List.mem_append.mp hp with h | h
    · split at h
      · rcases List.mem_flatMap.mp h with ⟨part, _, hpp⟩
        unfold toolPartPair at hpp
        split at hpp
        · split at hpp
          · simp at hpp
          · rename_i cid tn hcond
            simp at hpp
            push_neg at hcond
            subst hpp
            refine ⟨jsLower_idem _, jsLower_idem _, ?_, ?_⟩
            · simp [jsLower_eq_empty_iff]
              exact hcond.2
            · simp [jsLower_eq_empty_iff]
              exact hcond.1
        · simp at hpp
      · simp at h
    · exact ih h

/-- C1: for an authoritative transcript whose tool-invocation parts, in
transcript order, are `read`/`id1`, `write`/`id2`, `read`/`id3`, the
builder produces a table mapping `read:0` to `id1`, `write:0` to `id2`
and `read:1` to `id3`; and Gemini extraction over a request with
function-response parts `[read, write, read]`, using that table, recovers
the identifiers `[id1, id2, id3]` in that order. -/
theorem correlator_c1 (msgs : List Json) (id1 id2 id3 : String)
    (hc : collectToolParts msgs = [("read", id1), ("write", id2), ("read", id3)]) :
    (buildPositionMapping msgs).lookup "read:0" = some id1 ∧
    (buildPositionMapping msgs).lookup "write:0" = some id2 ∧
    (buildPositionMapping msgs).lookup "read:1" = some id3 ∧
    (geminiExtract
        [Json.obj [("parts", .arr [
          .obj [("functionResponse", .obj [("name", .str "read")])],
          .obj [("functionResponse", .obj [("name", .str "write")])],
          .obj [("functionResponse", .obj [("name", .str "read")])]])]]
        { googleToolCallMapping := [("s", buildPositionMapping msgs)] }).map (fun o => o.id) =
      [id1, id2, id3] := by
  have hm1 : ("read", id1) ∈ collectToolParts msgs := by rw [hc]; simp
  have hm2 : ("write", id2) ∈ collectToolParts msgs := by rw [hc]; simp
  have hm3 : ("read", id3) ∈ collectToolParts msgs := by rw [hc]; simp
  have hi1 := collectToolParts_mem msgs _ hm1
  have hi2 := collectToolParts_mem msgs _ hm2
  have hi3 := collectToolParts_mem msgs _ hm3
  have hl1 : jsLower id1 = id1 := hi1.2.1
  have hl2 : jsLower id2 = id2 := hi2.2.1
  have hl3 : jsLower id3 = id3 := hi3.2.1
  have hn1 : id1 ≠ "" := hi1.2.2.2
  have hn2 : id2 ≠ "" := hi2.2.2.2
  have hn3 : id3 ≠ "" := hi3.2.2.2
  have htable : buildPositionMapping msgs =
      [("read:0", id1), ("read:1", id3), ("write:0", id2)] := by
    unfold buildPositionMapping
    rw [hc]
    simp [toolCallsByName, addToGroup, List.enum, List.enumFrom]
    exact ⟨by decide, by decide, by decide⟩
  refine ⟨?_, ?_, ?_, ?_⟩
  · rw [htable]; simp [List.lookup]
  · rw [htable]; simp [List.lookup]
  · rw [htable]; simp [List.lookup]
  · unfold geminiExtract
    rw [htable]
    simp only [firstNonEmptyMapping, List.isEmpty_cons, ite_false]
    simp [geminiTableData, geminiTableParts, geminiTablePart, geminiPartCall,
      Json.getField, List.lookup, truthy,
      show jsLower "read" = "read" from rfl, show jsLower "write" = "write" from rfl,
      show ("read" ++ ":" ++ Nat.repr 0) = "read:0" from by decide,
      show ("read" ++ ":" ++ Nat.repr 1) = "read:1" from by decide,
      show ("write" ++ ":" ++ Nat.repr 0) = "write:0" from by decide,
      show (("read:" ++ Nat.repr 0) == "read:0") = true from by decide,
      show (("read:" ++ Nat.repr 1) == "read:0") = false from by decide,
      show (("read:" ++ Nat.repr 1) == "read:1") = true from by decide,
      show (("write:" ++ Nat.repr 0) == "read:0") = false from by decide,
      show (("write:" ++ Nat.repr 0) == "read:1") = false from by decide,
      show (("write:" ++ Nat.repr 0) == "write:0") = true from by decide,
      hl1, hl2, hl3, hn1, hn2, hn3]

/-- Witness for C1 at a concrete transcript with identifiers
`id1`, `id2`, `id3`. -/
theorem correlator_c1_witness :
    (buildPositionMapping [Json.obj [("parts", .arr [
        .obj [("type", .str "tool"), ("callID", .str "id1"), ("tool", .str "read")],
        .obj [("type", .str "tool"), ("callID", .str "id2"), ("tool", .str "write")],
        .obj [("type", .str "tool"), ("callID", .str "id3"), ("tool", .str "read")]])]]).lookup
      "read:0" = some "id1" ∧
    (geminiExtract
        [Json.obj [("parts", .arr [
          .obj [("functionResponse", .obj [("name", .str "read")])],
          .obj [("functionResponse", .obj [("name", .str "write")])],
          .obj [("functionResponse", .obj [("name", .str "read")])]])]]
        { googleToolCallMapping := [("s", buildPositionMapping [Json.obj [("parts", .arr [
          .obj [("type", .str "tool"), ("callID", .str "id1"), ("tool", .str "read")],
          .obj [("type", .str "tool"), ("callID", .str "id2"), ("tool", .str "write")],
          .obj [("type", .str "tool"), ("callID", .str "id3"), ("tool", .str "read")]])]])]
        }).map (fun o => o.id) = ["id1", "id2", "id3"] := by
  have h := correlator_c1 [Json.obj [("parts", .arr [
      .obj [("type", .str "tool"), ("callID", .str "id1"), ("tool", .str "read")],
      .obj [("type", .str "tool"), ("callID", .str "id2"), ("tool", .str "write")],
      .obj [("type", .str "tool"), ("callID", .str "id3"), ("tool", .str "read")]])]]
    "id1" "id2" "id3" (by decide)
  exact ⟨h.1, h.2.2.2⟩

/-! ## Claim C3: Gemini synthetic-id fallback. -/

theorem expectedSyntheticIds_length (k : Nat) (nms : List String) :
    (expectedSyntheticIds k nms).length = nms.length := by
  induction nms generalizing k with
  | nil => rfl
  | cons nm nms ih => simp [expectedSyntheticIds, ih]

theorem expectedSyntheticIds_append (k : Nat) (a b : List String) :
    expectedSyntheticIds k (a ++ b) =
      expectedSyntheticIds k a ++ expectedSyntheticIds (k + a.length) b := by
  induction a generalizing k with
  | nil => simp [expectedSyntheticIds]
  | cons nm a ih =>
    have harith : k + 1 + a.length = k + (a.length + 1) := by omega
    simp [expectedSyntheticIds, ih (k + 1), harith]

theorem geminiFallbackParts_ids (ps : List Json) : ∀ k : Nat,
    (geminiFallbackParts k ps).map (fun o => o.id) = expectedSyntheticIds k (geminiPartNames ps) := by
  induction ps with
  | nil => intro k; rfl
  | cons p ps ih =>
    intro k
    have hnames : geminiPartNames (p :: ps) =
        (match p.getField "functionResponse" with
         | some fr => if truthy fr then [(geminiFallbackName fr).getD "undefined"] else []
         | none => []) ++ geminiPartNames ps := rfl
    rw [geminiFallbackParts, hnames]
    cases hfr : p.getField "functionResponse" with
    | none => simpa [hfr] using ih k
    | some fr =>
      by_cases ht : truthy fr = true
      · simp [hfr, ht, expectedSyntheticIds, ih (k + 1)]
      · simp only [Bool.not_eq_true] at ht
        simpa [hfr, ht] using ih k

theorem geminiFallbackData_ids (data : List Json) : ∀ k : Nat,
    (geminiFallbackData k data).map (fun o => o.id) = expectedSyntheticIds k (geminiDataNames data) := by
  induction data with
  | nil => intro k; rfl
  | cons t ts ih =>
    intro k
    have hnames : geminiDataNames (t :: ts) =
        (match t.getField "parts" with
         | some (.arr ps) => geminiPartNames ps
         | _ => []) ++ geminiDataNames ts := rfl
    rw [geminiFallbackData, hnames]
    cases hp : t.getField "parts" with
    | none => simpa [hp] using ih k
    | some v =>
      cases v with
      | arr ps =>
        have hlen : (geminiFallbackParts k ps).length = (geminiPartNames ps).length := by
          have := congrArg List.length (geminiFallbackParts_ids ps k)
          simpa [expectedSyntheticIds_length] using this
        simp only [hp, List.map_append, geminiFallbackParts_ids ps k,
          ih (k + (geminiFallbackParts k ps).length), hlen,
          expectedSyntheticIds_append k (geminiPartNames ps) (geminiDataNames ts)]
        rw [ih (k + (geminiPartNames ps).length)]
      | null => simpa [hp] using ih k
      | bool b => simpa [hp] using ih k
      | num n => simpa [hp] using ih k
      | str s => simpa [hp] using ih k
      | obj fs => simpa [hp] using ih k

/-- C3 (counterexample): with no stored table, extraction over parts
`[read, write, read]` yields synthetic identifiers with a GLOBAL counter
(`gemini-write-1`, `gemini-read-2`), not the per-tool-name counters
(`gemini-write-0`, `gemini-read-1`) the claim states. -/
theorem gemini_fallback_c3_cex :
    (geminiExtract
        [Json.obj [("parts", .arr [
          .obj [("functionResponse", .obj [("name", .str "read")])],
          .obj [("functionResponse", .obj [("name", .str "write")])],
          .obj [("functionResponse", .obj [("name", .str "read")])]])]]
        createPluginState).map (fun o => o.id) =
      ["gemini-read-0", "gemini-write-1", "gemini-read-2"] ∧
    ¬ ((geminiExtract
        [Json.obj [("parts", .arr [
          .obj [("functionResponse", .obj [("name", .str "read")])],
          .obj [("functionResponse", .obj [("name", .str "write")])],
          .obj [("functionResponse", .obj [("name", .str "read")])]])]]
        createPluginState).map (fun o => o.id) =
      ["gemini-read-0", "gemini-write-0", "gemini-read-1"]) := by
  constructor
  · decide
  · decide

/-- C3 (amended): when the store holds no non-empty table, every
function-response part receives the synthetic identifier
`gemini-{toolName}-{counter}` where `{counter}` is the zero-based GLOBAL
rank of the part among all function-response parts of the body (the
`outputs.length` at push time), and an absent or non-string tool name
interpolates as the text `undefined`. -/
theorem gemini_fallback_c3 (data : List Json) (st : PluginState)
    (hnone : firstNonEmptyMapping st.googleToolCallMapping = none) :
    (geminiExtract data st).map (fun o => o.id) = expectedSyntheticIds 0 (geminiDataNames data) := by
  unfold geminiExtract
  rw [hnone]
  exact geminiFallbackData_ids data 0

/-- Witness for C3 (amended) at the concrete `[read, write, read]` body. -/
theorem gemini_fallback_c3_witness :
    (geminiExtract
        [Json.obj [("parts", .arr [
          .obj [("functionResponse", .obj [("name", .str "read")])],
          .obj [("functionResponse", .obj [("name", .str "write")])],
          .obj [("functionResponse", .obj [("name", .str "read")])]])]]
        createPluginState).map (fun o => o.id) =
      expectedSyntheticIds 0 (geminiDataNames
        [Json.obj [("parts", .arr [
          .obj [("functionResponse", .obj [("name", .str "read")])],
          .obj [("functionResponse", .obj [("name", .str "write")])],
          .obj [("functionResponse", .obj [("name", .str "read")])]])]]) :=
  gemini_fallback_c3 _ createPluginState rfl

/-! ## Claim C6: inject-into-last-user-turn targeting. -/

theorem injectData_none_iff (fmt : Format) (c : String) (data : List Json) :
    injectData fmt c data = none ↔ ∀ t ∈ data, userTurnPred fmt t = false := by
  induction data with
  | nil => simp [injectData]
  | cons x xs ih =>
    rw [injectData]
    cases hr : injectData fmt c xs with
    | some xs' =>
      simp only
      constructor
      · intro h
        cases h
      · intro h
        have hnone : injectData fmt c xs = none :=
          ih.mpr (fun t ht => h t (List.mem_cons_of_mem _ ht))
        rw [hnone] at hr
        cases hr
    | none =>
      simp only
      by_cases hp : userTurnPred fmt x = true
      · simp [hp]
      · simp only [Bool.not_eq_true] at hp
        rw [hp, if_neg (by simp)]
        simp only [List.mem_cons, forall_eq_or_imp]
        exact iff_of_true trivial ⟨hp, ih.mp hr⟩

theorem injectData_some_spec (fmt : Format) (c : String) (data data' : List Json)
    (h : injectData fmt c data = some data') :
    ∃ i, ∃ hi : i < data.length, userTurnPred fmt (data.get ⟨i, hi⟩) = true ∧
      (∀ j (hj : j < data.length), i < j → userTurnPred fmt (data.get ⟨j, hj⟩) = false) ∧
      data' = data.set i (injectTransform fmt c (data.get ⟨i, hi⟩)) := by
  induction data generalizing data' with
  | nil => simp [injectData] at h
  | cons x xs ih =>
    rw [injectData] at h
    cases hr : injectData fmt c xs with
    | some xs' =>
      rw [hr] at h
      simp only [Option.some.injEq] at h
      obtain ⟨i, hi, hpred, hafter, hset⟩ := ih xs' hr
      refine ⟨i + 1, by simpa using Nat.succ_lt_succ hi, ?_, ?_, ?_⟩
      · simpa using hpred
      · intro j hj hij
        cases j with
        | zero => omega
        | succ j' =>
          have hj' : j' < xs.length := by simpa using hj
          have := hafter j' hj' (by omega)
          simpa using this
      · rw [← h]
        simp [List.set, hset]
    | none =>
      rw [hr] at h
      by_cases hp : userTurnPred fmt x = true
      · rw [if_pos hp] at h
        simp only [Option.some.injEq] at h
        refine ⟨0, by simp, by simpa using hp, ?_, ?_⟩
        · intro j hj hij
          cases j with
          | zero => omega
          | succ j' =>
            have hall := (injectData_none_iff fmt c xs).mp hr
            have hj' : j' < xs.length := by simpa using hj
            have := hall (xs.get ⟨j', hj'⟩) (List.get_mem xs j' hj')
            simpa using this
        · rw [← h]
          simp [List.set]
      · rw [if_neg hp] at h
        cases h

/-- C6: `injectIntoLastUserMessage` scans the turn array from the end and
modifies the LAST turn its format-specific user predicate accepts (for
Responses: `type == message` AND `role == user`), appending the text to
string content and pushing a text part onto array content (for Gemini,
onto `parts`); it returns false and leaves the body unchanged when no turn
qualifies; in particular a Chat body `[user, assistant, tool]` gets the
text appended to its sole user turn. -/
theorem inject_last_user_c6 :
    (∀ (fmt : Format) (body : Json) (c : String),
      (∀ data, getDataArray fmt body = some data → ∀ t ∈ data, userTurnPred fmt t = false) →
      injectIntoLastUserMessage fmt body c = (false, body)) ∧
    (∀ (fmt : Format) (c : String) (data data' : List Json),
      injectData fmt c data = some data' →
      ∃ i, ∃ hi : i < data.length, userTurnPred fmt (data.get ⟨i, hi⟩) = true ∧
        (∀ j (hj : j < data.length), i < j → userTurnPred fmt (data.get ⟨j, hj⟩) = false) ∧
        data' = data.set i (injectTransform fmt c (data.get ⟨i, hi⟩))) ∧
    (∀ item : Json, userTurnPred .openaiResponses item = true ↔
      (item.getField "type" = some (.str "message") ∧
        item.getField "role" = some (.str "user"))) ∧
    (∀ (fmt : Format) (c : String) (item : Json) (s : String), fmt ≠ .gemini →
      item.getField "content" = some (.str s) →
      injectTransform fmt c item = item.setField "content" (.str (s ++ "\n\n" ++ c))) ∧
    (∀ (fmt : Format) (c : String) (item : Json) (xs : List Json), fmt ≠ .gemini →
      item.getField "content" = some (.arr xs) →
      ∃ p, injectTransform fmt c item = item.setField "content" (.arr (xs ++ [p]))) ∧
    (∀ (c : String) (item : Json) (ps : List Json),
      item.getField "parts" = some (.arr ps) →
      injectTransform .gemini c item =
        item.setField "parts" (.arr (ps ++ [.obj [("text", .str c)]]))) ∧
    (injectIntoLastUserMessage .openaiChat
        (Json.obj [("messages", .arr [
          .obj [("role", .str "user"), ("content", .str "hi")],
          .obj [("role", .str "assistant"), ("content", .str "ok")],
          .obj [("role", .str "tool"), ("tool_call_id", .str "t1"), ("content", .str "out")]])])
        "X" =
      (true, Json.obj [("messages", .arr [
          .obj [("role", .str "user"), ("content", .str ("hi" ++ "\n\n" ++ "X"))],
          .obj [("role", .str "assistant"), ("content", .str "ok")],
          .obj [("role", .str "tool"), ("tool_call_id", .str "t1"),
            ("content", .str "out")]])])) := by
  refine ⟨?_, ?_, ?_, ?_, ?_, ?_, ?_⟩
  · intro fmt body c h
    unfold injectIntoLastUserMessage
    cases hd : getDataArray fmt body with
    | none => rfl
    | some data =>
      show (match injectData fmt c data with
        | some data' => (true, body.setField fmt.fieldName (Json.arr data'))
        | none => (false, body)) = (false, body)
      rw [(injectData_none_iff fmt c data).mpr (h data hd)]
  · exact injectData_some_spec
  · intro item
    simp [userTurnPred, Bool.and_eq_true, decide_eq_true_eq]
  · intro fmt c item s hne hc
    cases fmt <;> simp_all [injectTransform, appendTextToContent]
  · intro fmt c item xs hne hc
    cases fmt with
    | openaiChat =>
      exact ⟨.obj [("type", .str "text"), ("text", .str c)],
        by simp [injectTransform, appendTextToContent, hc]⟩
    | openaiResponses =>
      exact ⟨.obj [("type", .str "input_text"), ("text", .str c)],
        by simp [injectTransform, appendTextToContent, hc]⟩
    | bedrock =>
      exact ⟨.obj [("type", .str "text"), ("text", .str c)],
        by simp [injectTransform, appendTextToContent, hc]⟩
    | gemini => exact absurd rfl hne
  · intro c item ps hp
    simp [injectTransform, hp]
  · decide

/-- Witness for C6: a Chat body with no user turn is returned unmodified
with a false flag. -/
theorem inject_last_user_c6_witness :
    injectIntoLastUserMessage .openaiChat
      (Json.obj [("messages", .arr [.obj [("role", .str "assistant")]])]) "X" =
      (false, Json.obj [("messages", .arr [.obj [("role", .str "assistant")]])]) := by
  have h := inject_last_user_c6.1 .openaiChat
    (Json.obj [("messages", .arr [.obj [("role", .str "assistant")]])]) "X"
  apply h
  intro data hd t ht
  simp [getDataArray, Format.fieldName, Json.getField, List.lookup] at hd
  subst hd
  simp at ht
  subst ht
  decide

/-! ## Claim C8: append/inject round-trip. -/

theorem getDataArray_some_iff (fmt : Format) (body : Json) (data : List Json) :
    getDataArray fmt body = some data ↔ body.getField fmt.fieldName = some (.arr data) := by
  unfold getDataArray
  cases hg : body.getField fmt.fieldName with
  | none => simp
  | some v => cases v <;> simp

theorem getDataArray_setField (fmt : Format) (body : Json) (l l' : List Json)
    (hd : body.getField fmt.fieldName = some (.arr l)) :
    getDataArray fmt (body.setField fmt.fieldName (.arr l')) = some l' := by
  cases body <;> simp [Json.getField] at hd
  rw [getDataArray_some_iff]
  exact getField_setField_eq _ _ _

theorem injectData_append_user (fmt : Format) (c : String) (data : List Json) (u : Json)
    (hu : userTurnPred fmt u = true) :
    injectData fmt c (data ++ [u]) = some (data ++ [injectTransform fmt c u]) := by
  induction data with
  | nil => simp [injectData, hu]
  | cons x xs ih =>
    rw [List.cons_append, injectData, ih]
    rfl

theorem userTurnPred_newUserTurn (fmt : Format) (c : String) :
    userTurnPred fmt (newUserTurn fmt c) = true := by
  cases fmt <;>
    simp [userTurnPred, newUserTurn, Json.getField, List.lookup, isArrField]

/-- C8: on every body whose turn array exists, `appendUserMessage` returns
true and appends exactly one minimal user turn, that turn is accepted by
the same format's own user-turn predicate, and a subsequent
`injectIntoLastUserMessage` returns true and targets precisely the
appended (now last) turn. -/
theorem append_inject_roundtrip_c8 (fmt : Format) (body : Json) (c c' : String)
    (data : List Json) (hd : getDataArray fmt body = some data) :
    appendUserMessage fmt body c =
      (true, body.setField fmt.fieldName (.arr (data ++ [newUserTurn fmt c]))) ∧
    getDataArray fmt (appendUserMessage fmt body c).2 = some (data ++ [newUserTurn fmt c]) ∧
    userTurnPred fmt (newUserTurn fmt c) = true ∧
    injectIntoLastUserMessage fmt (appendUserMessage fmt body c).2 c' =
      (true, (appendUserMessage fmt body c).2.setField fmt.fieldName
        (.arr (data ++ [injectTransform fmt c' (newUserTurn fmt c)]))) := by
  have hg : body.getField fmt.fieldName = some (.arr data) :=
    (getDataArray_some_iff fmt body data).mp hd
  have happ : appendUserMessage fmt body c =
      (true, body.setField fmt.fieldName (.arr (data ++ [newUserTurn fmt c]))) := by
    unfold appendUserMessage
    rw [hd]
  have hd1 : getDataArray fmt (appendUserMessage fmt body c).2 =
      some (data ++ [newUserTurn fmt c]) := by
    rw [happ]
    exact getDataArray_setField fmt body data _ hg
  refine ⟨happ, hd1, userTurnPred_newUserTurn fmt c, ?_⟩
  simp only [injectIntoLastUserMessage, hd1,
    injectData_append_user fmt c' data (newUserTurn fmt c) (userTurnPred_newUserTurn fmt c)]

/-- Witness for C8, at a concrete Chat body and a concrete Gemini body. -/
theorem append_inject_roundtrip_c8_witness :
    (injectIntoLastUserMessage .openaiChat
        (appendUserMessage .openaiChat (Json.obj [("messages", .arr [])]) "hello").2 "plus" =
      (true, (appendUserMessage .openaiChat (Json.obj [("messages", .arr [])]) "hello").2.setField
        "messages" (.arr ([] ++ [injectTransform .openaiChat "plus"
          (newUserTurn .openaiChat "hello")])))) ∧
    (injectIntoLastUserMessage .gemini
        (appendUserMessage .gemini (Json.obj [("contents", .arr [])]) "hello").2 "plus" =
      (true, (appendUserMessage .gemini (Json.obj [("contents", .arr [])]) "hello").2.setField
        "contents" (.arr ([] ++ [injectTransform .gemini "plus"
          (newUserTurn .gemini "hello")])))) := by
  constructor
  · exact (append_inject_roundtrip_c8 .openaiChat (Json.obj [("messages", .arr [])])
      "hello" "plus" [] (by decide)).2.2.2
  · exact (append_inject_roundtrip_c8 .gemini (Json.obj [("contents", .arr [])])
      "hello" "plus" [] (by decide)).2.2.2

/-! ## Claim C10: Gemini correlation lookup ignores the session key. -/

/-- C10: the Gemini table selection takes the first non-empty table in
store iteration order, looking only at the tables (never at the session
keys they are stored under); consequently Gemini extraction and the Gemini
branch of `replaceToolOutput` are invariant under rekeying the store and
under any change of the rest of the plugin state (in particular of the
current session id, which is never consulted). -/
theorem gemini_session_blind_c10 :
    (∀ store : List (String × List (String × String)),
      firstNonEmptyMapping store = (store.map Prod.snd).find? (fun m => !m.isEmpty)) ∧
    (∀ (data : List Json) (st st' : PluginState),
      st.googleToolCallMapping.map Prod.snd = st'.googleToolCallMapping.map Prod.snd →
      extractToolOutputs .gemini data st = extractToolOutputs .gemini data st') ∧
    (∀ (body : Json) (toolId c : String) (st st' : PluginState),
      st.googleToolCallMapping.map Prod.snd = st'.googleToolCallMapping.map Prod.snd →
      replaceToolOutput body .gemini toolId c st = replaceToolOutput body .gemini toolId c st') := by
  have hfind : ∀ store : List (String × List (String × String)),
      firstNonEmptyMapping store = (store.map Prod.snd).find? (fun m => !m.isEmpty) := by
    intro store
    induction store with
    | nil => rfl
    | cons e rest ih =>
      cases he : e.2.isEmpty <;> simp [firstNonEmptyMapping, List.find?, he, ih]
  have hfirst : ∀ (st st' : PluginState),
      st.googleToolCallMapping.map Prod.snd = st'.googleToolCallMapping.map Prod.snd →
      firstNonEmptyMapping st.googleToolCallMapping =
        firstNonEmptyMapping st'.googleToolCallMapping := by
    intro st st' h
    rw [hfind, hfind, h]
  refine ⟨hfind, ?_, ?_⟩
  · intro data st st' h
    show geminiExtract data st = geminiExtract data st'
    unfold geminiExtract
    rw [hfirst st st' h]
  · intro body toolId c st st' h
    unfold replaceToolOutput
    rw [hfirst st st' h]

/-- Witness for C10: two stores holding the same table under different
session keys, in states tracking different current sessions, extract
identically. -/
theorem gemini_session_blind_c10_witness :
    extractToolOutputs .gemini
        [Json.obj [("parts", .arr [.obj [("functionResponse", .obj [("name", .str "read")])]])]]
        { googleToolCallMapping := [("sessA", [("read:0", "id1")])],
          lastSeenSessionId := some "sessA" } =
      extractToolOutputs .gemini
        [Json.obj [("parts", .arr [.obj [("functionResponse", .obj [("name", .str "read")])]])]]
        { googleToolCallMapping := [("sessB", [("read:0", "id1")])],
          lastSeenSessionId := some "other" } :=
  gemini_session_blind_c10.2.1
    [Json.obj [("parts", .arr [.obj [("functionResponse", .obj [("name", .str "read")])]])]]
    { googleToolCallMapping := [("sessA", [("read:0", "id1")])],
      lastSeenSessionId := some "sessA" }
    { googleToolCallMapping := [("sessB", [("read:0", "id1")])],
      lastSeenSessionId := some "other" }
    rfl

/-! ## Claim C9: lower-cased identifier invariant. -/

theorem jsLower_synthetic (nm : String) (k : Nat) (hnm : jsLower nm = nm) :
    jsLower ("gemini-" ++ nm ++ "-" ++ Nat.repr k) = "gemini-" ++ nm ++ "-" ++ Nat.repr k := by
  simp [jsLower_append, hnm, jsLower_natRepr,
    show jsLower "gemini-" = "gemini-" from by decide,
    show jsLower "-" = "-" from by decide]

theorem geminiFallbackName_lower (fr : Json) (nm : String)
    (h : geminiFallbackName fr = some nm) : jsLower nm = nm := by
  unfold geminiFallbackName at h
  split at h
  · simp at h
    subst h
    exact jsLower_idem _
  · cases h

theorem geminiPartCall_lower (part : Json) (raw fn : String) (fr : Json)
    (h : geminiPartCall part = some (raw, fn, fr)) : jsLower fn = fn := by
  unfold geminiPartCall at h
  split at h
  · split at h
    · split at h
      · split at h
        · cases h
        · simp at h
          rw [← h.2.1]
          exact jsLower_idem _
      · cases h
    · cases h
  · cases h

theorem chatTurnOutputs_id_lower (m : Json) (out : ToolOutput)
    (h : out ∈ chatTurnOutputs m) : jsLower out.id = out.id := by
  unfold chatTurnOutputs at h
  rcases List.mem_append.mp h with h | h
  · split at h
    · split at h
      · cases h
      · simp at h
        rw [h]
        exact jsLower_idem _
    · cases h
  · split at h
    · rcases List.mem_flatMap.mp h with ⟨part, _, hp⟩
      unfold chatPartOutput at hp
      split at hp
      · split at hp
        · cases hp
        · simp at hp
          rw [hp]
          exact jsLower_idem _
      · cases hp
    · cases h

theorem responsesItemOutput_id_lower (item : Json) (out : ToolOutput)
    (h : out ∈ responsesItemOutput item) : jsLower out.id = out.id := by
  unfold responsesItemOutput at h
  split at h
  · split at h
    · cases h
    · simp at h
      rw [h]
      exact jsLower_idem _
  · cases h

theorem bedrockTurnOutputs_id_lower (m : Json) (out : ToolOutput)
    (h : out ∈ bedrockTurnOutputs m) : jsLower out.id = out.id := by
  unfold bedrockTurnOutputs at h
  split at h
  · rcases List.mem_flatMap.mp h with ⟨block, _, hb⟩
    unfold bedrockBlockOutputs at hb
    split at hb
    · split at hb
      · split at hb
        · split at hb
          · cases hb
          · simp at hb
            rw [hb]
            exact jsLower_idem _
        · cases hb
      · cases hb
    · cases hb
  · cases h

theorem geminiFallbackParts_id_lower (ps : List Json) : ∀ (k : Nat) (out : ToolOutput),
    out ∈ geminiFallbackParts k ps → jsLower out.id = out.id := by
  induction ps with
  | nil => intro k out h; cases h
  | cons p rest ih =>
    intro k out h
    rw [geminiFallbackParts] at h
    split at h
    · split at h
      · rcases List.mem_cons.mp h with h | h
        · subst h
          apply jsLower_synthetic
          cases hn : geminiFallbackName _ with
          | none => simp [hn]; decide
          | some nm =>
            simp [hn]
            exact geminiFallbackName_lower _ _ hn
        · exact ih (k + 1) out h
      · exact ih k out h
    · exact ih k out h

theorem geminiFallbackData_id_lower (data : List Json) : ∀ (k : Nat) (out : ToolOutput),
    out ∈ geminiFallbackData k data → jsLower out.id = out.id := by
  induction data with
  | nil => intro k out h; cases h
  | cons t ts ih =>
    intro k out h
    rw [geminiFallbackData] at h
    split at h
    · rcases List.mem_append.mp h with h | h
      · exact geminiFallbackParts_id_lower _ _ _ h
      · exact ih _ out h
    · exact ih k out h

theorem geminiTableParts_id_lower (mapping : List (String × String)) (ps : List Json) :
    ∀ (cs : String → Nat) (out : ToolOutput),
    out ∈ (geminiTableParts mapping ps cs).1 → jsLower out.id = out.id := by
  induction ps with
  | nil => intro cs out h; cases h
  | cons p rest ih =>
    intro cs out h
    rw [geminiTableParts] at h
    rcases List.mem_append.mp h with h | h
    · unfold geminiTablePart at h
      cases hc : geminiPartCall p with
      | none => rw [hc] at h; cases h
      | some v =>
        obtain ⟨raw, fn, fr⟩ := v
        rw [hc] at h
        simp only [List.mem_singleton] at h
        subst h
        have hfn : jsLower fn = fn := geminiPartCall_lower p raw fn fr hc
        cases hl : mapping.lookup (fn ++ ":" ++ Nat.repr (cs fn)) with
        | none =>
          simp only [hl]
          exact jsLower_synthetic fn _ hfn
        | some tid =>
          simp only [hl]
          by_cases he : jsLower tid = ""
          · simp only [he, if_pos rfl]
            exact jsLower_synthetic fn _ hfn
          · rw [if_neg he]
            exact jsLower_idem tid
    · exact ih _ out h

theorem geminiTableData_id_lower (mapping : List (String × String)) (data : List Json) :
    ∀ (cs : String → Nat) (out : ToolOutput),
    out ∈ (geminiTableData mapping data cs).1 → jsLower out.id = out.id := by
  induction data with
  | nil => intro cs out h; cases h
  | cons t ts ih =>
    intro cs out h
    rw [geminiTableData] at h
    split at h
    · rcases List.mem_append.mp h with h | h
      · exact geminiTableParts_id_lower _ _ _ _ h
      · exact ih _ out h
    · exact ih cs out h

/-- C9: for every format, data array and plugin state, every tool output
record returned by extraction carries an identifier equal to its own
case-folding (native identifiers are folded on extraction, Gemini
recovered identifiers are folded, and Gemini synthetic identifiers are
built from folded names, digits and lower-case literals). -/
theorem lowercase_ids_c9 (fmt : Format) (data : List Json) (st : PluginState)
    (out : ToolOutput) (h : out ∈ extractToolOutputs fmt data st) :
    jsLower out.id = out.id := by
  cases fmt with
  | openaiChat =>
    rcases List.mem_flatMap.mp h with ⟨m, _, hm⟩
    exact chatTurnOutputs_id_lower m out hm
  | openaiResponses =>
    rcases List.mem_flatMap.mp h with ⟨item, _, hi⟩
    exact responsesItemOutput_id_lower item out hi
  | bedrock =>
    rcases List.mem_flatMap.mp h with ⟨m, _, hm⟩
    exact bedrockTurnOutputs_id_lower m out hm
  | gemini =>
    have h' : out ∈ geminiExtract data st := h
    unfold geminiExtract at h'
    split at h'
    · exact geminiFallbackData_id_lower data 0 out h'
    · exact geminiTableData_id_lower _ data _ out h' 

/-- Witness for C9 at a concrete Chat extraction with an upper-case native
identifier. -/
theorem lowercase_ids_c9_witness :
    jsLower (ToolOutput.mk "call_abc" none none).id = (ToolOutput.mk "call_abc" none none).id :=
  lowercase_ids_c9 .openaiChat
    [Json.obj [("role", .str "tool"), ("tool_call_id", .str "CALL_ABC")]]
    createPluginState (ToolOutput.mk "call_abc" none none) (by decide)

/-! ## Claim C5: replace-by-id on an absent id. -/

theorem optStrLower_some (v : Option Json) (x : String) (h : optStrLower v = some x) :
    ∃ s, v = some (.str s) ∧ jsLower s = x := by
  unfold optStrLower at h
  split at h
  · simp only [Option.some.injEq] at h
    exact ⟨_, rfl, h⟩
  · cases h

theorem chatReplaceTurn_unmatched (idLower c : String) (m : Json)
    (h : (chatReplaceTurn idLower c m).2 = false) : (chatReplaceTurn idLower c m).1 = m := by
  by_cases hA : m.getField "role" = some (.str "tool") ∧
      optStrLower (m.getField "tool_call_id") = some idLower
  · simp [chatReplaceTurn, hA] at h
  · by_cases hB : m.getField "role" = some (.str "user")
    · cases hc : m.getField "content" with
      | none => simp [chatReplaceTurn, hA, hB, hc]
      | some v =>
        cases v with
        | arr parts =>
          cases hany : (parts.map (chatReplacePart idLower c)).any (fun r => r.2) with
          | true => simp [chatReplaceTurn, hA, hB, hc, hany] at h
          | false => simp [chatReplaceTurn, hA, hB, hc, hany]
        | null => simp [chatReplaceTurn, hA, hB, hc]
        | bool b => simp [chatReplaceTurn, hA, hB, hc]
        | num n => simp [chatReplaceTurn, hA, hB, hc]
        | str s => simp [chatReplaceTurn, hA, hB, hc]
        | obj fs => simp [chatReplaceTurn, hA, hB, hc]
    · simp [chatReplaceTurn, hA, hB]

theorem chatReplacePart_matched (idLower c : String) (part : Json)
    (hne : idLower ≠ "") (h : (chatReplacePart idLower c part).2 = true) :
    ∃ out ∈ chatPartOutput part, out.id = idLower := by
  by_cases hA : part.getField "type" = some (.str "tool_result") ∧
      optStrLower (part.getField "tool_use_id") = some idLower
  · obtain ⟨s, hs, hls⟩ := optStrLower_some _ _ hA.2
    have hsne : s ≠ "" := by
      intro hse
      subst hse
      exact hne (by simpa using hls.symm)
    refine ⟨⟨idLower, none, stringifyContent (part.getField "content")⟩, ?_, rfl⟩
    unfold chatPartOutput
    rw [hA.1, hs]
    simp [hsne, hls]
  · simp [chatReplacePart, hA] at h

theorem chatReplaceTurn_matched (idLower c : String) (m : Json)
    (hne : idLower ≠ "") (h : (chatReplaceTurn idLower c m).2 = true) :
    ∃ out ∈ chatTurnOutputs m, out.id = idLower := by
  by_cases hA : m.getField "role" = some (.str "tool") ∧
      optStrLower (m.getField "tool_call_id") = some idLower
  · obtain ⟨s, hs, hls⟩ := optStrLower_some _ _ hA.2
    have hsne : s ≠ "" := by
      intro hse
      subst hse
      exact hne (by simpa using hls.symm)
    refine ⟨⟨idLower, m.getField "name", stringifyContent (m.getField "content")⟩, ?_, rfl⟩
    unfold chatTurnOutputs
    apply List.mem_append_left
    rw [hA.1, hs]
    simp [hsne, hls]
  · by_cases hB : m.getField "role" = some (.str "user")
    · cases hc : m.getField "content" with
      | none => simp [chatReplaceTurn, hA, hB, hc] at h
      | some v =>
        cases v with
        | arr parts =>
          cases hany : (parts.map (chatReplacePart idLower c)).any (fun r => r.2) with
          | false => simp [chatReplaceTurn, hA, hB, hc, hany] at h
          | true =>
            rw [List.any_eq_true] at hany
            obtain ⟨r, hr, hr2⟩ := hany
            rcases List.mem_map.mp hr with ⟨part, hpart, hrp⟩
            subst hrp
            obtain ⟨out, ho, hoid⟩ :=
              chatReplacePart_matched idLower c part hne (by simpa using hr2)
            refine ⟨out, ?_, hoid⟩
            unfold chatTurnOutputs
            apply List.mem_append_right
            rw [hB, hc]
            exact List.mem_flatMap.mpr ⟨part, hpart, ho⟩
        | null => simp [chatReplaceTurn, hA, hB, hc] at h
        | bool b => simp [chatReplaceTurn, hA, hB, hc] at h
        | num n => simp [chatReplaceTurn, hA, hB, hc] at h
        | str s => simp [chatReplaceTurn, hA, hB, hc] at h
        | obj fs => simp [chatReplaceTurn, hA, hB, hc] at h
    · simp [chatReplaceTurn, hA, hB] at h

theorem responsesReplaceItem_unmatched (idLower c : String) (item : Json)
    (h : (responsesReplaceItem idLower c item).2 = false) :
    (responsesReplaceItem idLower c item).1 = item := by
  by_cases hA : item.getField "type" = some (.str "function_call_output") ∧
      optStrLower (item.getField "call_id") = some idLower
  · simp [responsesReplaceItem, hA] at h
  · simp [responsesReplaceItem, hA]

theorem responsesReplaceItem_matched (idLower c : String) (item : Json)
    (hne : idLower ≠ "") (h : (responsesReplaceItem idLower c item).2 = true) :
    ∃ out ∈ responsesItemOutput item, out.id = idLower := by
  by_cases hA : item.getField "type" = some (.str "function_call_output") ∧
      optStrLower (item.getField "call_id") = some idLower
  · obtain ⟨s, hs, hls⟩ := optStrLower_some _ _ hA.2
    have hsne : s ≠ "" := by
      intro hse
      subst hse
      exact hne (by simpa using hls.symm)
    refine ⟨⟨idLower, item.getField "name", stringifyContent (item.getField "output")⟩, ?_, rfl⟩
    unfold responsesItemOutput
    rw [hA.1, hs]
    simp [hsne, hls]
  · simp [responsesReplaceItem, hA] at h

theorem bedrockReplaceBlock_unmatched (idLower c : String) (block : Json)
    (h : (bedrockReplaceBlock idLower c block).2 = false) :
    (bedrockReplaceBlock idLower c block).1 = block := by
  unfold bedrockReplaceBlock at *
  cases htr : block.getField "toolResult" with
  | none => simp [htr]
  | some tr =>
    rw [htr] at h
    by_cases hA : truthy tr = true ∧ optStrLower (tr.getField "toolUseId") = some idLower
    · simp [hA] at h
    · simp [htr, hA]

theorem bedrockReplaceBlock_matched (idLower c : String) (block : Json)
    (hne : idLower ≠ "") (h : (bedrockReplaceBlock idLower c block).2 = true) :
    ∃ out ∈ bedrockBlockOutputs block, out.id = idLower := by
  unfold bedrockReplaceBlock at h
  cases htr : block.getField "toolResult" with
  | none => rw [htr] at h; cases h
  | some tr =>
    rw [htr] at h
    by_cases hA : truthy tr = true ∧ optStrLower (tr.getField "toolUseId") = some idLower
    · obtain ⟨s, hs, hls⟩ := optStrLower_some _ _ hA.2
      have hsne : s ≠ "" := by
        intro hse
        subst hse
        exact hne (by simpa using hls.symm)
      refine ⟨⟨idLower, none, bedrockContentField (tr.getField "content")⟩, ?_, rfl⟩
      simp [bedrockBlockOutputs, htr, hs, hA.1, hsne, hls]
    · simp [hA] at h

theorem bedrockReplaceTurn_unmatched (idLower c : String) (m : Json)
    (h : (bedrockReplaceTurn idLower c m).2 = false) :
    (bedrockReplaceTurn idLower c m).1 = m := by
  by_cases hB : m.getField "role" = some (.str "user")
  · cases hc : m.getField "content" with
    | none => simp [bedrockReplaceTurn, hB, hc]
    | some v =>
      cases v with
      | arr blocks =>
        cases hany : (blocks.map (bedrockReplaceBlock idLower c)).any (fun r => r.2) with
        | true => simp [bedrockReplaceTurn, hB, hc, hany] at h
        | false => simp [bedrockReplaceTurn, hB, hc, hany]
      | null => simp [bedrockReplaceTurn, hB, hc]
      | bool b => simp [bedrockReplaceTurn, hB, hc]
      | num n => simp [bedrockReplaceTurn, hB, hc]
      | str s => simp [bedrockReplaceTurn, hB, hc]
      | obj fs => simp [bedrockReplaceTurn, hB, hc]
  · simp [bedrockReplaceTurn, hB]

theorem bedrockReplaceTurn_matched (idLower c : String) (m : Json)
    (hne : idLower ≠ "") (h : (bedrockReplaceTurn idLower c m).2 = true) :
    ∃ out ∈ bedrockTurnOutputs m, out.id = idLower := by
  by_cases hB : m.getField "role" = some (.str "user")
  · cases hc : m.getField "content" with
    | none => simp [bedrockReplaceTurn, hB, hc] at h
    | some v =>
      cases v with
      | arr blocks =>
        cases hany : (blocks.map (bedrockReplaceBlock idLower c)).any (fun r => r.2) with
        | false => simp [bedrockReplaceTurn, hB, hc, hany] at h
        | true =>
          rw [List.any_eq_true] at hany
          obtain ⟨r, hr, hr2⟩ := hany
          rcases List.mem_map.mp hr with ⟨block, hblock, hrb⟩
          subst hrb
          obtain ⟨out, ho, hoid⟩ :=
            bedrockReplaceBlock_matched idLower c block hne (by simpa using hr2)
          refine ⟨out, ?_, hoid⟩
          unfold bedrockTurnOutputs
          rw [hB, hc]
          exact List.mem_flatMap.mpr ⟨block, hblock, ho⟩
      | null => simp [bedrockReplaceTurn, hB, hc] at h
      | bool b => simp [bedrockReplaceTurn, hB, hc] at h
      | num n => simp [bedrockReplaceTurn, hB, hc] at h
      | str s => simp [bedrockReplaceTurn, hB, hc] at h
      | obj fs => simp [bedrockReplaceTurn, hB, hc] at h
  · simp [bedrockReplaceTurn, hB] at h

theorem mapReplace_flag_true (f : Json → Json × Bool) (data : List Json)
    (hflag : (data.map f).any (fun r => r.2) = true) :
    ∃ m ∈ data, (f m).2 = true := by
  rw [List.any_eq_true] at hflag
  obtain ⟨r, hr, hr2⟩ := hflag
  rcases List.mem_map.mp hr with ⟨m, hm, hfm⟩
  subst hfm
  exact ⟨m, hm, hr2⟩

theorem mapReplace_flag_false_eq (f : Json → Json × Bool) (data : List Json)
    (hunm : ∀ m, (f m).2 = false → (f m).1 = m)
    (hflag : (data.map f).any (fun r => r.2) = false) :
    (data.map f).map (fun r => r.1) = data := by
  rw [List.any_eq_false] at hflag
  rw [List.map_map]
  have hpt : ∀ m ∈ data, ((fun r : Json × Bool => r.1) ∘ f) m = id m := by
    intro m hm
    have hf : (f m).2 = false := by
      have := hflag (f m) (List.mem_map.mpr ⟨m, hm, rfl⟩)
      simpa using this
    simpa using hunm m hf
  rw [List.map_congr_left hpt, List.map_id]

theorem geminiReplacePart_counters (mapping : List (String × String)) (idLower c : String)
    (cs : String → Nat) (part : Json) :
    (geminiReplacePart mapping idLower c cs part).2.1 = (geminiTablePart mapping cs part).2 := by
  unfold geminiReplacePart geminiTablePart
  cases hc : geminiPartCall part with
  | none => rfl
  | some v =>
    obtain ⟨raw, fn, fr⟩ := v
    simp only
    cases hl : mapping.lookup (fn ++ ":" ++ Nat.repr (cs fn)) with
    | none => simp [hl]
    | some tid =>
      by_cases he : jsLower tid = idLower <;> simp [hl, he]

theorem geminiReplacePart_unmatched (mapping : List (String × String)) (idLower c : String)
    (cs : String → Nat) (part : Json)
    (h : (geminiReplacePart mapping idLower c cs part).2.2 = false) :
    (geminiReplacePart mapping idLower c cs part).1 = part := by
  unfold geminiReplacePart at *
  cases hc : geminiPartCall part with
  | none => simp
  | some v =>
    obtain ⟨raw, fn, fr⟩ := v
    simp only [hc] at h
    cases hl : mapping.lookup (fn ++ ":" ++ Nat.repr (cs fn)) with
    | none => simp [hc, hl]
    | some tid =>
      simp only [hl] at h
      by_cases he : jsLower tid = idLower
      · simp [he] at h
      · simp [hc, hl, he]

theorem geminiReplacePart_matched (mapping : List (String × String)) (idLower c : String)
    (cs : String → Nat) (part : Json) (hne : idLower ≠ "")
    (h : (geminiReplacePart mapping idLower c cs part).2.2 = true) :
    ∃ out ∈ (geminiTablePart mapping cs part).1, out.id = idLower := by
  unfold geminiReplacePart at h
  cases hc : geminiPartCall part with
  | none => rw [hc] at h; cases h
  | some v =>
    obtain ⟨raw, fn, fr⟩ := v
    simp only [hc] at h
    cases hl : mapping.lookup (fn ++ ":" ++ Nat.repr (cs fn)) with
    | none =>
      simp only [hl] at h
      exact Bool.noConfusion h
    | some tid =>
      simp only [hl] at h
      by_cases he : jsLower tid = idLower
      · refine ⟨⟨idLower, some (.str fn), geminiRespContent fr⟩, ?_, rfl⟩
        unfold geminiTablePart
        simp only [hc, hl, he]
        rw [if_neg hne]
        simp
      · simp [he] at h

theorem geminiReplaceParts_counters (mapping : List (String × String)) (idLower c : String)
    (ps : List Json) : ∀ cs : String → Nat,
    (geminiReplaceParts mapping idLower c ps cs).2.1 = (geminiTableParts mapping ps cs).2 := by
  induction ps with
  | nil => intro cs; rfl
  | cons p rest ih =>
    intro cs
    rw [geminiReplaceParts, geminiTableParts]
    simp only
    rw [geminiReplacePart_counters, ih]

theorem geminiReplaceParts_unmatched (mapping : List (String × String)) (idLower c : String)
    (ps : List Json) : ∀ cs : String → Nat,
    (geminiReplaceParts mapping idLower c ps cs).2.2 = false →
    (geminiReplaceParts mapping idLower c ps cs).1 = ps := by
  induction ps with
  | nil => intro cs _; rfl
  | cons p rest ih =>
    intro cs h
    rw [geminiReplaceParts] at h ⊢
    simp only [Bool.or_eq_false_iff] at h
    simp only
    rw [geminiReplacePart_unmatched mapping idLower c cs p h.1, ih _ h.2]

theorem geminiReplaceParts_matched (mapping : List (String × String)) (idLower c : String)
    (ps : List Json) (hne : idLower ≠ "") : ∀ cs : String → Nat,
    (geminiReplaceParts mapping idLower c ps cs).2.2 = true →
    ∃ out ∈ (geminiTableParts mapping ps cs).1, out.id = idLower := by
  induction ps with
  | nil => intro cs h; cases h
  | cons p rest ih =>
    intro cs h
    rw [geminiReplaceParts] at h
    simp only [Bool.or_eq_true] at h
    rcases h with h | h
    · obtain ⟨out, ho, hid⟩ := geminiReplacePart_matched mapping idLower c cs p hne h
      refine ⟨out, ?_, hid⟩
      rw [geminiTableParts]
      exact List.mem_append_left _ ho
    · obtain ⟨out, ho, hid⟩ := ih ((geminiReplacePart mapping idLower c cs p).2.1) h
      refine ⟨out, ?_, hid⟩
      rw [geminiTableParts]
      apply List.mem_append_right
      rw [← geminiReplacePart_counters mapping idLower c cs p]
      exact ho

theorem geminiReplaceTurn_counters (mapping : List (String × String)) (idLower c : String)
    (cs : String → Nat) (t : Json) :
    (geminiReplaceTurn mapping idLower c cs t).2.1 =
      (match t.getField "parts" with
       | some (.arr ps) => (geminiTableParts mapping ps cs).2
       | _ => cs) := by
  unfold geminiReplaceTurn
  cases hp : t.getField "parts" with
  | none => rfl
  | some v =>
    cases v with
    | arr ps =>
      simp only
      by_cases hf : (geminiReplaceParts mapping idLower c ps cs).2.2 = true
      · simp [hf, geminiReplaceParts_counters]
      · simp only [Bool.not_eq_true] at hf
        simp [hf, geminiReplaceParts_counters]
    | null => rfl
    | bool b => rfl
    | num n => rfl
    | str s => rfl
    | obj fs => rfl

theorem geminiReplaceTurn_unmatched (mapping : List (String × String)) (idLower c : String)
    (cs : String → Nat) (t : Json)
    (h : (geminiReplaceTurn mapping idLower c cs t).2.2 = false) :
    (geminiReplaceTurn mapping idLower c cs t).1 = t := by
  unfold geminiReplaceTurn at *
  cases hp : t.getField "parts" with
  | none => simp
  | some v =>
    cases v with
    | arr ps =>
      rw [hp] at h
      simp only at h ⊢
      by_cases hf : (geminiReplaceParts mapping idLower c ps cs).2.2 = true
      · simp [hf] at h
      · simp only [Bool.not_eq_true] at hf
        simp [hf]
    | null => simp [hp]
    | bool b => simp [hp]
    | num n => simp [hp]
    | str s => simp [hp]
    | obj fs => simp [hp]

theorem geminiReplaceTurn_matched (mapping : List (String × String)) (idLower c : String)
    (cs : String → Nat) (t : Json) (hne : idLower ≠ "")
    (h : (geminiReplaceTurn mapping idLower c cs t).2.2 = true) :
    ∃ out ∈ (match t.getField "parts" with
        | some (.arr ps) => (geminiTableParts mapping ps cs).1
        | _ => ([] : List ToolOutput)), out.id = idLower := by
  unfold geminiReplaceTurn at h
  cases hp : t.getField "parts" with
  | none => rw [hp] at h; cases h
  | some v =>
    cases v with
    | arr ps =>
      rw [hp] at h
      simp only at h
      by_cases hf : (geminiReplaceParts mapping idLower c ps cs).2.2 = true
      · obtain ⟨out, ho, hid⟩ := geminiReplaceParts_matched mapping idLower c ps hne cs hf
        exact ⟨out, by simp only; exact ho, hid⟩
      · simp only [Bool.not_eq_true] at hf
        simp [hf] at h
    | null => rw [hp] at h; cases h
    | bool b => rw [hp] at h; cases h
    | num n => rw [hp] at h; cases h
    | str s => rw [hp] at h; cases h
    | obj fs => rw [hp] at h; cases h

theorem geminiReplaceData_unmatched (mapping : List (String × String)) (idLower c : String)
    (data : List Json) : ∀ cs : String → Nat,
    (geminiReplaceData mapping idLower c data cs).2.2 = false →
    (geminiReplaceData mapping idLower c data cs).1 = data := by
  induction data with
  | nil => intro cs _; rfl
  | cons t ts ih =>
    intro cs h
    rw [geminiReplaceData] at h ⊢
    simp only [Bool.or_eq_false_iff] at h
    simp only
    rw [geminiReplaceTurn_unmatched mapping idLower c cs t h.1, ih _ h.2]

theorem geminiReplaceData_matched (mapping : List (String × String)) (idLower c : String)
    (data : List Json) (hne : idLower ≠ "") : ∀ cs : String → Nat,
    (geminiReplaceData mapping idLower c data cs).2.2 = true →
    ∃ out ∈ (geminiTableData mapping data cs).1, out.id = idLower := by
  induction data with
  | nil => intro cs h; cases h
  | cons t ts ih =>
    intro cs h
    rw [geminiReplaceData] at h
    simp only [Bool.or_eq_true] at h
    have hcnt := geminiReplaceTurn_counters mapping idLower c cs t
    rcases h with h | h
    · obtain ⟨out, ho, hid⟩ := geminiReplaceTurn_matched mapping idLower c cs t hne h
      refine ⟨out, ?_, hid⟩
      rw [geminiTableData]
      cases hp : t.getField "parts" with
      | none => rw [hp] at ho; cases ho
      | some v =>
        cases v with
        | arr ps =>
          rw [hp] at ho
          simp only at ho ⊢
          exact List.mem_append_left _ ho
        | null => rw [hp] at ho; cases ho
        | bool b => rw [hp] at ho; cases ho
        | num n => rw [hp] at ho; cases ho
        | str s => rw [hp] at ho; cases ho
        | obj fs => rw [hp] at ho; cases ho
    · obtain ⟨out, ho, hid⟩ := ih ((geminiReplaceTurn mapping idLower c cs t).2.1) h
      refine ⟨out, ?_, hid⟩
      rw [geminiTableData]
      cases hp : t.getField "parts" with
      | none =>
        rw [hp] at hcnt
        rw [hcnt] at ho
        simpa [hp] using ho
      | some v =>
        cases v with
        | arr ps =>
          rw [hp] at hcnt
          rw [hcnt] at ho
          simp only [hp]
          exact List.mem_append_right _ ho
        | null =>
          rw [hp] at hcnt
          rw [hcnt] at ho
          simpa [hp] using ho
        | bool b =>
          rw [hp] at hcnt
          rw [hcnt] at ho
          simpa [hp] using ho
        | num n =>
          rw [hp] at hcnt
          rw [hcnt] at ho
          simpa [hp] using ho
        | str s =>
          rw [hp] at hcnt
          rw [hcnt] at ho
          simpa [hp] using ho
        | obj fs =>
          rw [hp] at hcnt
          rw [hcnt] at ho
          simpa [hp] using ho

/-- C5 (counterexample): with the empty tool id, a chat turn carrying an
empty-string `tool_call_id` is invisible to extraction (the id is falsy)
yet matches in `replaceToolOutput`, which returns true and mutates the
body — refuting the claim for the id `""`. -/
theorem replace_absent_c5_cex :
    extractToolOutputs .openaiChat
        [Json.obj [("role", .str "tool"), ("tool_call_id", .str "")]] createPluginState = [] ∧
    (replaceToolOutput
        (Json.obj [("messages", .arr [.obj [("role", .str "tool"), ("tool_call_id", .str "")]])])
        .openaiChat "" "X" createPluginState).1 = true ∧
    (replaceToolOutput
        (Json.obj [("messages", .arr [.obj [("role", .str "tool"), ("tool_call_id", .str "")]])])
        .openaiChat "" "X" createPluginState).2 ≠
      Json.obj [("messages", .arr [.obj [("role", .str "tool"), ("tool_call_id", .str "")]])] := by
  refine ⟨by decide, by decide, by decide⟩

/-- C5 (amended): for every format, body and plugin state, and every tool
id whose case-folded form is non-empty and matches no extracted tool
output of the body, `replaceToolOutput` returns false and leaves the body
unchanged (it never throws: the embedding is total). -/
theorem replace_absent_c5 (fmt : Format) (body : Json) (toolId c : String) (st : PluginState)
    (hne : jsLower toolId ≠ "")
    (h : ∀ data, getDataArray fmt body = some data →
      ∀ out ∈ extractToolOutputs fmt data st, out.id ≠ jsLower toolId) :
    replaceToolOutput body fmt toolId c st = (false, body) := by
  unfold replaceToolOutput
  cases hd : getDataArray fmt body with
  | none => rfl
  | some data =>
    have hg : body.getField fmt.fieldName = some (.arr data) :=
      (getDataArray_some_iff fmt body data).mp hd
    have hout := h data hd
    cases fmt with
    | openaiChat =>
      have hflag : (data.map (chatReplaceTurn (jsLower toolId) c)).any (fun r => r.2) = false := by
        cases hany : (data.map (chatReplaceTurn (jsLower toolId) c)).any (fun r => r.2) with
        | false => rfl
        | true =>
          obtain ⟨m, hm, hm2⟩ := mapReplace_flag_true _ data hany
          obtain ⟨out, ho, hid⟩ := chatReplaceTurn_matched _ c m hne hm2
          exact absurd hid (hout out (List.mem_flatMap.mpr ⟨m, hm, ho⟩))
      have hmap := mapReplace_flag_false_eq (chatReplaceTurn (jsLower toolId) c) data
        (fun m => chatReplaceTurn_unmatched _ _ m) hflag
      show ((data.map (chatReplaceTurn (jsLower toolId) c)).any (fun r => r.2),
        body.setField Format.openaiChat.fieldName
          (.arr ((data.map (chatReplaceTurn (jsLower toolId) c)).map (fun r => r.1)))) =
        (false, body)
      rw [hflag, hmap, setField_self _ _ _ hg]
    | openaiResponses =>
      have hflag : (data.map (responsesReplaceItem (jsLower toolId) c)).any (fun r => r.2) =
          false := by
        cases hany : (data.map (responsesReplaceItem (jsLower toolId) c)).any (fun r => r.2) with
        | false => rfl
        | true =>
          obtain ⟨m, hm, hm2⟩ := mapReplace_flag_true _ data hany
          obtain ⟨out, ho, hid⟩ := responsesReplaceItem_matched _ c m hne hm2
          exact absurd hid (hout out (List.mem_flatMap.mpr ⟨m, hm, ho⟩))
      have hmap := mapReplace_flag_false_eq (responsesReplaceItem (jsLower toolId) c) data
        (fun m => responsesReplaceItem_unmatched _ _ m) hflag
      show ((data.map (responsesReplaceItem (jsLower toolId) c)).any (fun r => r.2),
        body.setField Format.openaiResponses.fieldName
          (.arr ((data.map (responsesReplaceItem (jsLower toolId) c)).map (fun r => r.1)))) =
        (false, body)
      rw [hflag, hmap, setField_self _ _ _ hg]
    | bedrock =>
      have hflag : (data.map (bedrockReplaceTurn (jsLower toolId) c)).any (fun r => r.2) =
          false := by
        cases hany : (data.map (bedrockReplaceTurn (jsLower toolId) c)).any (fun r => r.2) with
        | false => rfl
        | true =>
          obtain ⟨m, hm, hm2⟩ := mapReplace_flag_true _ data hany
          obtain ⟨out, ho, hid⟩ := bedrockReplaceTurn_matched _ c m hne hm2
          exact absurd hid (hout out (List.mem_flatMap.mpr ⟨m, hm, ho⟩))
      have hmap := mapReplace_flag_false_eq (bedrockReplaceTurn (jsLower toolId) c) data
        (fun m => bedrockReplaceTurn_unmatched _ _ m) hflag
      show ((data.map (bedrockReplaceTurn (jsLower toolId) c)).any (fun r => r.2),
        body.setField Format.bedrock.fieldName
          (.arr ((data.map (bedrockReplaceTurn (jsLower toolId) c)).map (fun r => r.1)))) =
        (false, body)
      rw [hflag, hmap, setField_self _ _ _ hg]
    | gemini =>
      cases hfm : firstNonEmptyMapping st.googleToolCallMapping with
      | none => rfl
      | some mapping =>
        have hflag : (geminiReplaceData mapping (jsLower toolId) c data (fun _ => 0)).2.2 =
            false := by
          cases hf2 : (geminiReplaceData mapping (jsLower toolId) c data (fun _ => 0)).2.2 with
          | false => rfl
          | true =>
            obtain ⟨out, ho, hid⟩ :=
              geminiReplaceData_matched mapping (jsLower toolId) c data hne (fun _ => 0) hf2
            have hmem : out ∈ extractToolOutputs .gemini data st := by
              show out ∈ geminiExtract data st
              unfold geminiExtract
              rw [hfm]
              exact ho
            exact absurd hid (hout out hmem)
        have hlist := geminiReplaceData_unmatched mapping (jsLower toolId) c data (fun _ => 0) hflag
        show ((geminiReplaceData mapping (jsLower toolId) c data (fun _ => 0)).2.2,
          body.setField Format.gemini.fieldName
            (.arr (geminiReplaceData mapping (jsLower toolId) c data (fun _ => 0)).1)) =
          (false, body)
        rw [hflag, hlist, setField_self _ _ _ hg]

/-- Witness for C5 at a concrete Chat body and an absent id. -/
theorem replace_absent_c5_witness :
    replaceToolOutput
        (Json.obj [("messages", .arr [.obj [("role", .str "tool"), ("tool_call_id", .str "a1")]])])
        .openaiChat "nope" "X" createPluginState =
      (false,
        Json.obj [("messages", .arr [.obj [("role", .str "tool"),
          ("tool_call_id", .str "a1")]])]) := by
  apply replace_absent_c5
  · decide
  · intro data hd
    simp [getDataArray, Format.fieldName, Json.getField, List.lookup] at hd
    subst hd
    decide

/-! ## Claim C7: replacement frame property. -/

theorem getField_some_obj (j : Json) (k : String) (v : Json) (h : j.getField k = some v) :
    ∃ fs, j = .obj fs := by
  cases j <;> simp [Json.getField] at h ⊢

theorem setField_getField_of_obj (j : Json) (k : String) (v : Json) (k0 : String) (v0 : Json)
    (h : j.getField k0 = some v0) : (j.setField k v).getField k = some v := by
  obtain ⟨fs, hfs⟩ := getField_some_obj j k0 v0 h
  subst hfs
  exact getField_setField_eq fs k v

theorem chatReplacePart_snd_iff (idLower c : String) (part : Json) :
    (chatReplacePart idLower c part).2 = true ↔ chatPartMatch idLower part := by
  unfold chatReplacePart chatPartMatch
  by_cases h : part.getField "type" = some (.str "tool_result") ∧
      optStrLower (part.getField "tool_use_id") = some idLower
  · simp [h]
  · simp [h]

theorem chatReplacePart_frame (idLower c : String) (part : Json) :
    (∀ k, k ≠ "content" → ((chatReplacePart idLower c part).1).getField k = part.getField k) ∧
    (¬ chatPartMatch idLower part → (chatReplacePart idLower c part).1 = part) ∧
    (chatPartMatch idLower part →
      ((chatReplacePart idLower c part).1).getField "content" = some (.str c)) := by
  by_cases h : part.getField "type" = some (.str "tool_result") ∧
      optStrLower (part.getField "tool_use_id") = some idLower
  · have hm : chatPartMatch idLower part := h
    have hfst : (chatReplacePart idLower c part).1 = part.setField "content" (.str c) := by
      unfold chatReplacePart
      rw [if_pos h]
    refine ⟨?_, fun hc => absurd hm hc, fun _ => ?_⟩
    · intro k hk
      rw [hfst]
      exact getField_setField_ne _ _ _ _ hk
    · rw [hfst]
      exact setField_getField_of_obj part "content" _ "type" _ h.1
  · have hm : ¬ chatPartMatch idLower part := h
    have hfst : (chatReplacePart idLower c part).1 = part := by
      unfold chatReplacePart
      rw [if_neg h]
    refine ⟨fun k _ => by rw [hfst], fun _ => hfst, fun hc => absurd hc hm⟩

theorem chatReplaceTurn_frame (idLower c : String) (m : Json) :
    chatTurnFrame idLower c m (chatReplaceTurn idLower c m).1 := by
  by_cases hA : m.getField "role" = some (.str "tool") ∧
      optStrLower (m.getField "tool_call_id") = some idLower
  · have hfst : (chatReplaceTurn idLower c m).1 = m.setField "content" (.str c) := by
      unfold chatReplaceTurn
      rw [if_pos hA]
    refine ⟨?_, fun hn _ => absurd hA hn, fun _ => ?_, fun hU => ?_⟩
    · intro k hk
      rw [hfst]
      exact getField_setField_ne _ _ _ _ hk
    · rw [hfst]
      exact setField_getField_of_obj m "content" _ "role" _ hA.1
    · exfalso
      have := hA.1 ▸ hU.1
      simp at this
  · by_cases hB : m.getField "role" = some (.str "user")
    · cases hc : m.getField "content" with
      | some v =>
        cases v with
        | arr parts =>
          cases hany : (parts.map (chatReplacePart idLower c)).any (fun r => r.2) with
          | true =>
            have hfst : (chatReplaceTurn idLower c m).1 =
                m.setField "content"
                  (.arr ((parts.map (chatReplacePart idLower c)).map (fun r => r.1))) := by
              unfold chatReplaceTurn
              rw [if_neg hA, if_pos hB, hc]
              simp [hany]
            have hU : chatTurnMatchUser idLower m := by
              obtain ⟨part, hpm, hp2⟩ := mapReplace_flag_true _ parts hany
              exact ⟨hB, parts, hc, part, hpm, (chatReplacePart_snd_iff idLower c part).mp hp2⟩
            refine ⟨?_, fun _ hn => absurd hU hn, fun hT => absurd hT hA, fun _ => ?_⟩
            · intro k hk
              rw [hfst]
              exact getField_setField_ne _ _ _ _ hk
            · refine ⟨parts, (parts.map (chatReplacePart idLower c)).map (fun r => r.1),
                hc, ?_, by simp, ?_⟩
              · rw [hfst]
                exact setField_getField_of_obj m "content" _ "role" _ hB
              · intro j hj hj'
                have hget : ((parts.map (chatReplacePart idLower c)).map (fun r => r.1)).get
                    ⟨j, hj'⟩ = (chatReplacePart idLower c (parts.get ⟨j, hj⟩)).1 := by
                  simp [List.get_map]
                rw [hget]
                exact chatReplacePart_frame idLower c (parts.get ⟨j, hj⟩)
          | false =>
            have hfst : (chatReplaceTurn idLower c m).1 = m := by
              unfold chatReplaceTurn
              rw [if_neg hA, if_pos hB, hc]
              simp [hany]
            have hnotU : ¬ chatTurnMatchUser idLower m := by
              rintro ⟨-, parts0, hc0, part, hpm, hmatch⟩
              rw [hc] at hc0
              simp only [Option.some.injEq, Json.arr.injEq] at hc0
              subst hc0
              rw [List.any_eq_false] at hany
              have := hany _ (List.mem_map.mpr ⟨part, hpm, rfl⟩)
              exact this (by simpa using (chatReplacePart_snd_iff idLower c part).mpr hmatch)
            exact ⟨fun k _ => by rw [hfst], fun _ _ => hfst,
              fun hT => absurd hT hA, fun hU => absurd hU hnotU⟩
        | null =>
          have hfst : (chatReplaceTurn idLower c m).1 = m := by
            unfold chatReplaceTurn
            rw [if_neg hA, if_pos hB, hc]
          refine ⟨fun k _ => by rw [hfst], fun _ _ => hfst, fun hT => absurd hT hA, fun hU => ?_⟩
          exfalso
          obtain ⟨-, parts0, hc0, -⟩ := hU
          rw [hc] at hc0
          cases hc0
        | bool b =>
          have hfst : (chatReplaceTurn idLower c m).1 = m := by
            unfold chatReplaceTurn
            rw [if_neg hA, if_pos hB, hc]
          refine ⟨fun k _ => by rw [hfst], fun _ _ => hfst, fun hT => absurd hT hA, fun hU => ?_⟩
          exfalso
          obtain ⟨-, parts0, hc0, -⟩ := hU
          rw [hc] at hc0
          cases hc0
        | num n =>
          have hfst : (chatReplaceTurn idLower c m).1 = m := by
            unfold chatReplaceTurn
            rw [if_neg hA, if_pos hB, hc]
          refine ⟨fun k _ => by rw [hfst], fun _ _ => hfst, fun hT => absurd hT hA, fun hU => ?_⟩
          exfalso
          obtain ⟨-, parts0, hc0, -⟩ := hU
          rw [hc] at hc0
          cases hc0
        | str s =>
          have hfst : (chatReplaceTurn idLower c m).1 = m := by
            unfold chatReplaceTurn
            rw [if_neg hA, if_pos hB, hc]
          refine ⟨fun k _ => by rw [hfst], fun _ _ => hfst, fun hT => absurd hT hA, fun hU => ?_⟩
          exfalso
          obtain ⟨-, parts0, hc0, -⟩ := hU
          rw [hc] at hc0
          cases hc0
        | obj fs =>
          have hfst : (chatReplaceTurn idLower c m).1 = m := by
            unfold chatReplaceTurn
            rw [if_neg hA, if_pos hB, hc]
          refine ⟨fun k _ => by rw [hfst], fun _ _ => hfst, fun hT => absurd hT hA, fun hU => ?_⟩
          exfalso
          obtain ⟨-, parts0, hc0, -⟩ := hU
          rw [hc] at hc0
          cases hc0
      | none =>
        have hfst : (chatReplaceTurn idLower c m).1 = m := by
          unfold chatReplaceTurn
          rw [if_neg hA, if_pos hB, hc]
        refine ⟨fun k _ => by rw [hfst], fun _ _ => hfst, fun hT => absurd hT hA, fun hU => ?_⟩
        exfalso
        obtain ⟨-, parts0, hc0, -⟩ := hU
        rw [hc] at hc0
        cases hc0
    · have hfst : (chatReplaceTurn idLower c m).1 = m := by
        unfold chatReplaceTurn
        rw [if_neg hA, if_neg hB]
      exact ⟨fun k _ => by rw [hfst], fun _ _ => hfst, fun hT => absurd hT hA,
        fun hU => absurd hU.1 hB⟩

theorem responsesReplaceItem_frame (idLower c : String) (m : Json) :
    responsesItemFrame idLower c m (responsesReplaceItem idLower c m).1 := by
  by_cases h : m.getField "type" = some (.str "function_call_output") ∧
      optStrLower (m.getField "call_id") = some idLower
  · have hfst : (responsesReplaceItem idLower c m).1 = m.setField "output" (.str c) := by
      unfold responsesReplaceItem
      rw [if_pos h]
    refine ⟨?_, fun hn => absurd h hn, fun _ => ?_⟩
    · intro k hk
      rw [hfst]
      exact getField_setField_ne _ _ _ _ hk
    · rw [hfst]
      exact setField_getField_of_obj m "output" _ "type" _ h.1
  · have hfst : (responsesReplaceItem idLower c m).1 = m := by
      unfold responsesReplaceItem
      rw [if_neg h]
    exact ⟨fun k _ => by rw [hfst], fun _ => hfst, fun hm => absurd hm h⟩

theorem bedrockReplaceBlock_snd_iff (idLower c : String) (b : Json) :
    (bedrockReplaceBlock idLower c b).2 = true ↔ bedrockBlockMatch idLower b := by
  unfold bedrockReplaceBlock bedrockBlockMatch
  cases htr : b.getField "toolResult" with
  | none => simp
  | some tr =>
    by_cases hA : truthy tr = true ∧ optStrLower (tr.getField "toolUseId") = some idLower
    · simp only [hA, and_imp, if_pos]
      constructor
      · intro _
        exact ⟨tr, rfl, hA.1, hA.2⟩
      · intro _
        rfl
    · simp only [if_neg hA]
      constructor
      · intro hfalse
        cases hfalse
      · rintro ⟨tr0, htr0, h1, h2⟩
        simp only [Option.some.injEq] at htr0
        subst htr0
        exact absurd ⟨h1, h2⟩ hA

theorem bedrockReplaceBlock_frame (idLower c : String) (b : Json) :
    bedrockBlockFrame idLower c b (bedrockReplaceBlock idLower c b).1 := by
  cases htr : b.getField "toolResult" with
  | none =>
    have hfst : (bedrockReplaceBlock idLower c b).1 = b := by
      unfold bedrockReplaceBlock
      rw [htr]
    refine ⟨fun k _ => by rw [hfst], fun _ => hfst, fun hm => ?_⟩
    exfalso
    obtain ⟨tr0, htr0, -⟩ := hm
    rw [htr] at htr0
    cases htr0
  | some tr =>
    by_cases hA : truthy tr = true ∧ optStrLower (tr.getField "toolUseId") = some idLower
    · have hfst : (bedrockReplaceBlock idLower c b).1 =
          b.setField "toolResult" (tr.setField "content" (.arr [.obj [("text", .str c)]])) := by
        unfold bedrockReplaceBlock
        rw [htr]
        show (if truthy tr = true ∧ optStrLower (tr.getField "toolUseId") = some idLower then
            (b.setField "toolResult" (tr.setField "content" (.arr [.obj [("text", .str c)]])), true)
          else (b, false)).1 =
          b.setField "toolResult" (tr.setField "content" (.arr [.obj [("text", .str c)]]))
        rw [if_pos hA]
      have hmatch : bedrockBlockMatch idLower b := ⟨tr, htr, hA.1, hA.2⟩
      obtain ⟨s, hs, -⟩ := optStrLower_some _ _ hA.2
      refine ⟨?_, fun hn => absurd hmatch hn, fun _ => ?_⟩
      · intro k hk
        rw [hfst]
        exact getField_setField_ne _ _ _ _ hk
      · refine ⟨tr, tr.setField "content" (.arr [.obj [("text", .str c)]]), htr, ?_, ?_, ?_⟩
        · rw [hfst]
          exact setField_getField_of_obj b "toolResult" _ "toolResult" _ htr
        · intro k hk
          exact getField_setField_ne _ _ _ _ hk
        · exact setField_getField_of_obj tr "content" _ "toolUseId" _ hs
    · have hfst : (bedrockReplaceBlock idLower c b).1 = b := by
        unfold bedrockReplaceBlock
        rw [htr]
        show (if truthy tr = true ∧ optStrLower (tr.getField "toolUseId") = some idLower then
            (b.setField "toolResult" (tr.setField "content" (.arr [.obj [("text", .str c)]])), true)
          else (b, false)).1 = b
        rw [if_neg hA]
      refine ⟨fun k _ => by rw [hfst], fun _ => hfst, fun hm => ?_⟩
      exfalso
      obtain ⟨tr0, htr0, h1, h2⟩ := hm
      rw [htr] at htr0
      simp only [Option.some.injEq] at htr0
      subst htr0
      exact hA ⟨h1, h2⟩

theorem bedrockReplaceTurn_frame (idLower c : String) (m : Json) :
    bedrockTurnFrame idLower c m (bedrockReplaceTurn idLower c m).1 := by
  by_cases hB : m.getField "role" = some (.str "user")
  · cases hc : m.getField "content" with
    | some v =>
      cases v with
      | arr blocks =>
        cases hany : (blocks.map (bedrockReplaceBlock idLower c)).any (fun r => r.2) with
        | true =>
          have hfst : (bedrockReplaceTurn idLower c m).1 =
              m.setField "content"
                (.arr ((blocks.map (bedrockReplaceBlock idLower c)).map (fun r => r.1))) := by
            unfold bedrockReplaceTurn
            rw [if_pos hB, hc]
            simp [hany]
          have hU : bedrockTurnMatch idLower m := by
            obtain ⟨b, hbm, hb2⟩ := mapReplace_flag_true _ blocks hany
            exact ⟨hB, blocks, hc, b, hbm, (bedrockReplaceBlock_snd_iff idLower c b).mp hb2⟩
          refine ⟨?_, fun hn => absurd hU hn, fun _ => ?_⟩
          · intro k hk
            rw [hfst]
            exact getField_setField_ne _ _ _ _ hk
          · refine ⟨blocks, (blocks.map (bedrockReplaceBlock idLower c)).map (fun r => r.1),
              hc, ?_, by simp, ?_⟩
            · rw [hfst]
              exact setField_getField_of_obj m "content" _ "role" _ hB
            · intro j hj hj'
              have hget : ((blocks.map (bedrockReplaceBlock idLower c)).map (fun r => r.1)).get
                  ⟨j, hj'⟩ = (bedrockReplaceBlock idLower c (blocks.get ⟨j, hj⟩)).1 := by
                simp [List.get_map]
              rw [hget]
              exact bedrockReplaceBlock_frame idLower c (blocks.get ⟨j, hj⟩)
        | false =>
          have hfst : (bedrockReplaceTurn idLower c m).1 = m := by
            unfold bedrockReplaceTurn
            rw [if_pos hB, hc]
            simp [hany]
          have hnotU : ¬ bedrockTurnMatch idLower m := by
            rintro ⟨-, blocks0, hc0, b, hbm, hmatch⟩
            rw [hc] at hc0
            simp only [Option.some.injEq, Json.arr.injEq] at hc0
            subst hc0
            rw [List.any_eq_false] at hany
            have := hany _ (List.mem_map.mpr ⟨b, hbm, rfl⟩)
            exact this (by simpa using (bedrockReplaceBlock_snd_iff idLower c b).mpr hmatch)
          exact ⟨fun k _ => by rw [hfst], fun _ => hfst, fun hU => absurd hU hnotU⟩
      | null =>
        have hfst : (bedrockReplaceTurn idLower c m).1 = m := by
          unfold bedrockReplaceTurn
          rw [if_pos hB, hc]
        refine ⟨fun k _ => by rw [hfst], fun _ => hfst, fun hU => ?_⟩
        exfalso
        obtain ⟨-, blocks0, hc0, -⟩ := hU
        rw [hc] at hc0
        cases hc0
      | bool b =>
        have hfst : (bedrockReplaceTurn idLower c m).1 = m := by
          unfold bedrockReplaceTurn
          rw [if_pos hB, hc]
        refine ⟨fun k _ => by rw [hfst], fun _ => hfst, fun hU => ?_⟩
        exfalso
        obtain ⟨-, blocks0, hc0, -⟩ := hU
        rw [hc] at hc0
        cases hc0
      | num n =>
        have hfst : (bedrockReplaceTurn idLower c m).1 = m := by
          unfold bedrockReplaceTurn
          rw [if_pos hB, hc]
        refine ⟨fun k _ => by rw [hfst], fun _ => hfst, fun hU => ?_⟩
        exfalso
        obtain ⟨-, blocks0, hc0, -⟩ := hU
        rw [hc] at hc0
        cases hc0
      | str s =>
        have hfst : (bedrockReplaceTurn idLower c m).1 = m := by
          unfold bedrockReplaceTurn
          rw [if_pos hB, hc]
        refine ⟨fun k _ => by rw [hfst], fun _ => hfst, fun hU => ?_⟩
        exfalso
        obtain ⟨-, blocks0, hc0, -⟩ := hU
        rw [hc] at hc0
        cases hc0
      | obj fs =>
        have hfst : (bedrockReplaceTurn idLower c m).1 = m := by
          unfold bedrockReplaceTurn
          rw [if_pos hB, hc]
        refine ⟨fun k _ => by rw [hfst], fun _ => hfst, fun hU => ?_⟩
        exfalso
        obtain ⟨-, blocks0, hc0, -⟩ := hU
        rw [hc] at hc0
        cases hc0
    | none =>
      have hfst : (bedrockReplaceTurn idLower c m).1 = m := by
        unfold bedrockReplaceTurn
        rw [if_pos hB, hc]
      refine ⟨fun k _ => by rw [hfst], fun _ => hfst, fun hU => ?_⟩
      exfalso
      obtain ⟨-, blocks0, hc0, -⟩ := hU
      rw [hc] at hc0
      cases hc0
  · have hfst : (bedrockReplaceTurn idLower c m).1 = m := by
      unfold bedrockReplaceTurn
      rw [if_neg hB]
    exact ⟨fun k _ => by rw [hfst], fun _ => hfst, fun hU => absurd hU.1 hB⟩

theorem geminiPartCall_spec (part : Json) (raw fn : String) (fr : Json)
    (h : geminiPartCall part = some (raw, fn, fr)) :
    part.getField "functionResponse" = some fr ∧ truthy fr = true ∧
      fr.getField "name" = some (.str raw) ∧ fn = jsLower raw ∧ raw ≠ "" := by
  unfold geminiPartCall at h
  cases hfr : part.getField "functionResponse" with
  | none => rw [hfr] at h; cases h
  | some fr0 =>
    simp only [hfr] at h
    by_cases htr : truthy fr0 = true
    · rw [if_pos htr] at h
      cases hnm : fr0.getField "name" with
      | none => simp [hnm] at h
      | some v =>
        cases v with
        | str s =>
          by_cases hse : s = ""
          · simp [hnm, hse] at h
          · simp only [hnm, if_neg hse] at h
            simp only [Option.some.injEq, Prod.mk.injEq] at h
            obtain ⟨h1, h2, h3⟩ := h
            subst h1
            subst h2
            subst h3
            exact ⟨rfl, htr, hnm, rfl, hse⟩
        | null => simp [hnm] at h
        | bool b => simp [hnm] at h
        | num n => simp [hnm] at h
        | arr xs => simp [hnm] at h
        | obj fs => simp [hnm] at h
    · rw [if_neg htr] at h
      cases h

theorem geminiReplacePart_frame (mapping : List (String × String)) (idLower c : String)
    (cs : String → Nat) (part : Json) :
    geminiPartFrame c part (geminiReplacePart mapping idLower c cs part).1 := by
  unfold geminiReplacePart
  cases hc : geminiPartCall part with
  | none => exact Or.inl rfl
  | some v =>
    obtain ⟨raw, fn, fr⟩ := v
    obtain ⟨hfr, htr, hnm, hfn, hraw⟩ := geminiPartCall_spec part raw fn fr hc
    simp only
    cases hl : mapping.lookup (fn ++ ":" ++ Nat.repr (cs fn)) with
    | none => exact Or.inl rfl
    | some tid =>
      by_cases he : jsLower tid = idLower
      · simp only [he, if_pos rfl]
        right
        refine ⟨?_, fr, fr.setField "response" (.obj [("name", .str raw), ("content", .str c)]),
          hfr, ?_, ?_, raw, hnm, ?_⟩
        · intro k hk
          exact getField_setField_ne _ _ _ _ hk
        · exact setField_getField_of_obj part "functionResponse" _ "functionResponse" _ hfr
        · intro k hk
          exact getField_setField_ne _ _ _ _ hk
        · exact setField_getField_of_obj fr "response" _ "name" _ hnm
      · simp only [if_neg he]
        exact Or.inl rfl

theorem geminiReplacePart_pos_char (mapping : List (String × String)) (idLower c : String)
    (cs : String → Nat) (part : Json)
    (h : (geminiReplacePart mapping idLower c cs part).2.2 = true) :
    ∃ raw fn fr tid, geminiPartCall part = some (raw, fn, fr) ∧
      mapping.lookup (fn ++ ":" ++ Nat.repr (cs fn)) = some tid ∧ jsLower tid = idLower := by
  unfold geminiReplacePart at h
  cases hc : geminiPartCall part with
  | none => rw [hc] at h; cases h
  | some v =>
    obtain ⟨raw, fn, fr⟩ := v
    simp only [hc] at h
    cases hl : mapping.lookup (fn ++ ":" ++ Nat.repr (cs fn)) with
    | none =>
      simp only [hl] at h
      exact Bool.noConfusion h
    | some tid =>
      simp only [hl] at h
      by_cases he : jsLower tid = idLower
      · exact ⟨raw, fn, fr, tid, rfl, hl, he⟩
      · simp [he] at h

theorem geminiReplaceParts_length (mapping : List (String × String)) (idLower c : String)
    (ps : List Json) : ∀ cs : String → Nat,
    (geminiReplaceParts mapping idLower c ps cs).1.length = ps.length := by
  induction ps with
  | nil => intro cs; rfl
  | cons p rest ih =>
    intro cs
    rw [geminiReplaceParts]
    simp [ih]

theorem geminiReplaceParts_frame (mapping : List (String × String)) (idLower c : String)
    (ps : List Json) : ∀ (cs : String → Nat) (j : Nat) (hj : j < ps.length)
    (hj' : j < (geminiReplaceParts mapping idLower c ps cs).1.length),
    geminiPartFrame c (ps.get ⟨j, hj⟩)
      ((geminiReplaceParts mapping idLower c ps cs).1.get ⟨j, hj'⟩) := by
  induction ps with
  | nil =>
    intro cs j hj hj'
    simp at hj
  | cons p rest ih =>
    intro cs j hj hj'
    simp only [geminiReplaceParts] at hj' ⊢
    cases j with
    | zero => exact geminiReplacePart_frame mapping idLower c cs p
    | succ j' =>
      have hj2 : j' < rest.length := by simpa using hj
      have hj2' : j' <
          (geminiReplaceParts mapping idLower c rest
            (geminiReplacePart mapping idLower c cs p).2.1).1.length := by
        simpa using hj'
      exact ih _ j' hj2 hj2'

theorem geminiReplaceTurn_frame (mapping : List (String × String)) (idLower c : String)
    (cs : String → Nat) (t : Json) :
    geminiTurnFrame c t (geminiReplaceTurn mapping idLower c cs t).1 := by
  unfold geminiReplaceTurn
  cases hp : t.getField "parts" with
  | none => exact ⟨fun k _ => rfl, Or.inl rfl⟩
  | some v =>
    cases v with
    | arr ps =>
      simp only
      by_cases hf : (geminiReplaceParts mapping idLower c ps cs).2.2 = true
      · simp only [hf, if_pos rfl]
        constructor
        · intro k hk
          exact getField_setField_ne _ _ _ _ hk
        · right
          refine ⟨ps, (geminiReplaceParts mapping idLower c ps cs).1, hp, ?_,
            geminiReplaceParts_length mapping idLower c ps cs, ?_⟩
          · exact setField_getField_of_obj t "parts" _ "parts" _ hp
          · intro j hj hj'
            exact geminiReplaceParts_frame mapping idLower c ps cs j hj hj'
      · simp only [Bool.not_eq_true] at hf
        simp only [hf]
        exact ⟨fun k _ => by simp, Or.inl (by simp)⟩
    | null => exact ⟨fun k _ => rfl, Or.inl rfl⟩
    | bool b => exact ⟨fun k _ => rfl, Or.inl rfl⟩
    | num n => exact ⟨fun k _ => rfl, Or.inl rfl⟩
    | str s => exact ⟨fun k _ => rfl, Or.inl rfl⟩
    | obj fs => exact ⟨fun k _ => rfl, Or.inl rfl⟩

theorem geminiReplaceData_length (mapping : List (String × String)) (idLower c : String)
    (data : List Json) : ∀ cs : String → Nat,
    (geminiReplaceData mapping idLower c data cs).1.length = data.length := by
  induction data with
  | nil => intro cs; rfl
  | cons t ts ih =>
    intro cs
    rw [geminiReplaceData]
    simp [ih]

theorem geminiReplaceData_frame (mapping : List (String × String)) (idLower c : String)
    (data : List Json) : ∀ (cs : String → Nat) (i : Nat) (hi : i < data.length)
    (hi' : i < (geminiReplaceData mapping idLower c data cs).1.length),
    geminiTurnFrame c (data.get ⟨i, hi⟩)
      ((geminiReplaceData mapping idLower c data cs).1.get ⟨i, hi'⟩) := by
  induction data with
  | nil =>
    intro cs i hi hi'
    simp at hi
  | cons t ts ih =>
    intro cs i hi hi'
    simp only [geminiReplaceData] at hi' ⊢
    cases i with
    | zero => exact geminiReplaceTurn_frame mapping idLower c cs t
    | succ i' =>
      have hi2 : i' < ts.length := by simpa using hi
      have hi2' : i' <
          (geminiReplaceData mapping idLower c ts
            (geminiReplaceTurn mapping idLower c cs t).2.1).1.length := by
        simpa using hi'
      exact ih _ i' hi2 hi2'

theorem replaceToolOutput_none (fmt : Format) (body : Json) (toolId c : String)
    (st : PluginState) (hd : getDataArray fmt body = none) :
    replaceToolOutput body fmt toolId c st = (false, body) := by
  unfold replaceToolOutput
  rw [hd]

theorem replaceToolOutput_chat_eq (body : Json) (toolId c : String) (st : PluginState)
    (data : List Json) (hd : getDataArray .openaiChat body = some data) :
    replaceToolOutput body .openaiChat toolId c st =
      ((data.map (chatReplaceTurn (jsLower toolId) c)).any (fun r => r.2),
        body.setField Format.openaiChat.fieldName
          (.arr ((data.map (chatReplaceTurn (jsLower toolId) c)).map (fun r => r.1)))) := by
  unfold replaceToolOutput
  rw [hd]

theorem replaceToolOutput_responses_eq (body : Json) (toolId c : String) (st : PluginState)
    (data : List Json) (hd : getDataArray .openaiResponses body = some data) :
    replaceToolOutput body .openaiResponses toolId c st =
      ((data.map (responsesReplaceItem (jsLower toolId) c)).any (fun r => r.2),
        body.setField Format.openaiResponses.fieldName
          (.arr ((data.map (responsesReplaceItem (jsLower toolId) c)).map (fun r => r.1)))) := by
  unfold replaceToolOutput
  rw [hd]

theorem replaceToolOutput_bedrock_eq (body : Json) (toolId c : String) (st : PluginState)
    (data : List Json) (hd : getDataArray .bedrock body = some data) :
    replaceToolOutput body .bedrock toolId c st =
      ((data.map (bedrockReplaceTurn (jsLower toolId) c)).any (fun r => r.2),
        body.setField Format.bedrock.fieldName
          (.arr ((data.map (bedrockReplaceTurn (jsLower toolId) c)).map (fun r => r.1)))) := by
  unfold replaceToolOutput
  rw [hd]

theorem replaceToolOutput_gemini_none (body : Json) (toolId c : String) (st : PluginState)
    (hfm : firstNonEmptyMapping st.googleToolCallMapping = none) :
    replaceToolOutput body .gemini toolId c st = (false, body) := by
  unfold replaceToolOutput
  cases hd : getDataArray .gemini body with
  | none => rfl
  | some data => simp only [hfm]

theorem replaceToolOutput_gemini_eq (body : Json) (toolId c : String) (st : PluginState)
    (data : List Json) (mapping : List (String × String))
    (hd : getDataArray .gemini body = some data)
    (hfm : firstNonEmptyMapping st.googleToolCallMapping = some mapping) :
    replaceToolOutput body .gemini toolId c st =
      ((geminiReplaceData mapping (jsLower toolId) c data (fun _ => 0)).2.2,
        body.setField Format.gemini.fieldName
          (.arr (geminiReplaceData mapping (jsLower toolId) c data (fun _ => 0)).1)) := by
  unfold replaceToolOutput
  rw [hd]
  simp only [hfm]

/-- C7: `replaceToolOutput` never touches a body field other than the turn
array; a missing turn array (or, for Gemini, an absent correlation table)
leaves the body untouched with a false flag; the rewritten turn array is
pointwise related to the original by the per-format frame relation — only
the tool-result payload of identifier-matched turns/parts changes
(`content` for Chat, `output` for Responses, a single text block in
`toolResult.content` for Bedrock, the `response` of the position-matched
`functionResponse` for Gemini), and everything else is left unchanged;
finally a Gemini part is rewritten only when the mapping's identifier for
its (name, occurrence) position case-folds to the requested id. -/
theorem replace_frame_c7 (fmt : Format) (body : Json) (toolId c : String) (st : PluginState) :
    (∀ k, k ≠ fmt.fieldName →
      (replaceToolOutput body fmt toolId c st).2.getField k = body.getField k) ∧
    (getDataArray fmt body = none → (replaceToolOutput body fmt toolId c st).2 = body) ∧
    (∀ data, getDataArray fmt body = some data →
      ∃ data', getDataArray fmt (replaceToolOutput body fmt toolId c st).2 = some data' ∧
        data'.length = data.length ∧
        ∀ i (hi : i < data.length) (hi' : i < data'.length),
          turnFrame fmt (jsLower toolId) c (data.get ⟨i, hi⟩) (data'.get ⟨i, hi'⟩)) ∧
    (fmt = .gemini → firstNonEmptyMapping st.googleToolCallMapping = none →
      replaceToolOutput body fmt toolId c st = (false, body)) ∧
    (∀ (mapping : List (String × String)) (cs : String → Nat) (part : Json),
      ((geminiReplacePart mapping (jsLower toolId) c cs part).2.2 = false →
        (geminiReplacePart mapping (jsLower toolId) c cs part).1 = part) ∧
      ((geminiReplacePart mapping (jsLower toolId) c cs part).2.2 = true →
        geminiPartFrame c part (geminiReplacePart mapping (jsLower toolId) c cs part).1 ∧
        ∃ raw fn fr tid, geminiPartCall part = some (raw, fn, fr) ∧
          mapping.lookup (fn ++ ":" ++ Nat.repr (cs fn)) = some tid ∧
          jsLower tid = jsLower toolId)) := by
  refine ⟨?_, ?_, ?_, ?_, ?_⟩
  · intro k hk
    cases hd : getDataArray fmt body with
    | none => rw [replaceToolOutput_none fmt body toolId c st hd]
    | some data =>
      cases fmt with
      | openaiChat =>
        rw [replaceToolOutput_chat_eq body toolId c st data hd]
        exact getField_setField_ne _ _ _ _ hk
      | openaiResponses =>
        rw [replaceToolOutput_responses_eq body toolId c st data hd]
        exact getField_setField_ne _ _ _ _ hk
      | bedrock =>
        rw [replaceToolOutput_bedrock_eq body toolId c st data hd]
        exact getField_setField_ne _ _ _ _ hk
      | gemini =>
        cases hfm : firstNonEmptyMapping st.googleToolCallMapping with
        | none => rw [replaceToolOutput_gemini_none body toolId c st hfm]
        | some mapping =>
          rw [replaceToolOutput_gemini_eq body toolId c st data mapping hd hfm]
          exact getField_setField_ne _ _ _ _ hk
  · intro hd
    rw [replaceToolOutput_none fmt body toolId c st hd]
  · intro data hd
    have hg : body.getField fmt.fieldName = some (.arr data) :=
      (getDataArray_some_iff fmt body data).mp hd
    cases fmt with
    | openaiChat =>
      refine ⟨(data.map (chatReplaceTurn (jsLower toolId) c)).map (fun r => r.1), ?_,
        by simp, ?_⟩
      · rw [replaceToolOutput_chat_eq body toolId c st data hd]
        exact getDataArray_setField _ body data _ hg
      · intro i hi hi'
        have hget : ((data.map (chatReplaceTurn (jsLower toolId) c)).map (fun r => r.1)).get
            ⟨i, hi'⟩ = (chatReplaceTurn (jsLower toolId) c (data.get ⟨i, hi⟩)).1 := by
          simp [List.get_map]
        rw [hget]
        exact chatReplaceTurn_frame _ _ _
    | openaiResponses =>
      refine ⟨(data.map (responsesReplaceItem (jsLower toolId) c)).map (fun r => r.1), ?_,
        by simp, ?_⟩
      · rw [replaceToolOutput_responses_eq body toolId c st data hd]
        exact getDataArray_setField _ body data _ hg
      · intro i hi hi'
        have hget : ((data.map (responsesReplaceItem (jsLower toolId) c)).map (fun r => r.1)).get
            ⟨i, hi'⟩ = (responsesReplaceItem (jsLower toolId) c (data.get ⟨i, hi⟩)).1 := by
          simp [List.get_map]
        rw [hget]
        exact responsesReplaceItem_frame _ _ _
    | bedrock =>
      refine ⟨(data.map (bedrockReplaceTurn (jsLower toolId) c)).map (fun r => r.1), ?_,
        by simp, ?_⟩
      · rw [replaceToolOutput_bedrock_eq body toolId c st data hd]
        exact getDataArray_setField _ body data _ hg
      · intro i hi hi'
        have hget : ((data.map (bedrockReplaceTurn (jsLower toolId) c)).map (fun r => r.1)).get
            ⟨i, hi'⟩ = (bedrockReplaceTurn (jsLower toolId) c (data.get ⟨i, hi⟩)).1 := by
          simp [List.get_map]
        rw [hget]
        exact bedrockReplaceTurn_frame _ _ _
    | gemini =>
      cases hfm : firstNonEmptyMapping st.googleToolCallMapping with
      | none =>
        refine ⟨data, ?_, rfl, ?_⟩
        · rw [replaceToolOutput_gemini_none body toolId c st hfm]
          exact hd
        · intro i hi hi'
          exact ⟨fun k _ => rfl, Or.inl rfl⟩
      | some mapping =>
        refine ⟨(geminiReplaceData mapping (jsLower toolId) c data (fun _ => 0)).1, ?_,
          geminiReplaceData_length mapping (jsLower toolId) c data _, ?_⟩
        · rw [replaceToolOutput_gemini_eq body toolId c st data mapping hd hfm]
          exact getDataArray_setField _ body data _ hg
        · intro i hi hi'
          exact geminiReplaceData_frame mapping (jsLower toolId) c data _ i hi hi'
  · intro hfmt hfm
    subst hfmt
    exact replaceToolOutput_gemini_none body toolId c st hfm
  · intro mapping cs part
    refine ⟨geminiReplacePart_unmatched mapping (jsLower toolId) c cs part, fun ht => ?_⟩
    exact ⟨geminiReplacePart_frame mapping (jsLower toolId) c cs part,
      geminiReplacePart_pos_char mapping (jsLower toolId) c cs part ht⟩

/-- Witness for C7: replacing a tool output leaves an unrelated top-level
body field (`model`) untouched. -/
theorem replace_frame_c7_witness :
    (replaceToolOutput
        (Json.obj [("model", .str "m"),
          ("messages", .arr [.obj [("role", .str "tool"), ("tool_call_id", .str "a1"),
            ("content", .str "old")]])])
        .openaiChat "A1" "new" createPluginState).2.getField "model" = some (.str "m") := by
  have h := (replace_frame_c7 .openaiChat
    (Json.obj [("model", .str "m"),
      ("messages", .arr [.obj [("role", .str "tool"), ("tool_call_id", .str "a1"),
        ("content", .str "old")]])])
    "A1" "new" createPluginState).1 "model" (by decide)
  rw [h]
  decide

end Poe
